import Mathlib

/-!
Verification of the serialization core of the `serious` library
(`serious/serialization/core.py` and `serious/descriptors.py`).

The development shallowly embeds:

* the dynamically-typed tree values exchanged between dataclasses and
  dicts (`Value`);
* the per-call serialization context stack (`Serialization._steps`,
  pushed by `_entering`, popped only on normal completion — the
  `@contextmanager` has no `try/finally`, so an exception skips the
  `pop()`);
* `SeriousModel.load` / `SeriousModel.dump` with their
  missing/unexpected-field checks (`_check_for_missing`,
  `_check_for_unexpected`, `_fields_missing_from`), the private copy
  `mut_data = dict(data)` (modelled with an explicit heap of dict
  objects so that mutation targets are visible), root-only error
  wrapping into `LoadError`/`DumpError`, and the `ValidationError`
  pass-through of `load`;
* the concrete field serializers needed by the round-trip claims
  (primitives, optional, collections, nested dataclasses), following
  `field_serializers.py`;
* type descriptors: `describe`/`_describe_generic`/`_collect_type_vars`,
  `DescTypes.scan`, and `SeriousModel.__init__`'s construction-time
  checks and first-fit serializer dispatch (`find_serializer`).

Python reflection (`fields`, `get_type_hints`, `__orig_bases__`,
`issubclass`) is represented by explicit class tables (`Env` for values,
`TEnv` for types).  Functions whose Python counterparts recurse through
those tables carry an explicit fuel argument; theorems quantify over or
instantiate the fuel.  Modules of the repository that are referenced by
`core.py` but absent from the source tree (`serious/validation.py`,
`serious/preconditions.py`, `serious/errors.py`) are modelled from the
spec where noted.
-/

set_option maxRecDepth 4000

namespace Serious

mutual
/-- Tree/runtime values: `None`, scalars, lists, dicts and dataclass
instances.  Dict entries and dataclass fields are ordered association
lists, mirroring insertion-ordered Python dicts. -/
inductive Value where
  | vnone
  | vint (n : Int)
  | vstr (s : String)
  | vbool (b : Bool)
  | vlist (xs : VList)
  | vdict (es : VEntries)
  | vrecord (c : Nat) (fs : VEntries)
  deriving DecidableEq
inductive VList where
  | nil
  | cons (v : Value) (rest : VList)
  deriving DecidableEq
inductive VEntries where
  | nil
  | cons (k : String) (v : Value) (rest : VEntries)
  deriving DecidableEq
end

def VList.ofList : List Value → VList
  | [] => .nil
  | v :: r => .cons v (VList.ofList r)

def VList.toList : VList → List Value
  | .nil => []
  | .cons v r => v :: VList.toList r

def VEntries.ofList : List (String × Value) → VEntries
  | [] => .nil
  | (k, v) :: r => .cons k v (VEntries.ofList r)

def VEntries.toList : VEntries → List (String × Value)
  | .nil => []
  | .cons k v r => (k, v) :: VEntries.toList r

/-- `d[k]` / `k in d`: first entry with the key. -/
def VEntries.lookup : VEntries → String → Option Value
  | .nil, _ => none
  | .cons k v r, key => if k = key then some v else VEntries.lookup r key

/-- `d[k] = v`: replace in place when the key exists, append otherwise
(insertion-ordered Python dict assignment). -/
def VEntries.set : VEntries → String → Value → VEntries
  | .nil, key, val => .cons key val .nil
  | .cons k v r, key, val =>
      if k = key then .cons k val r else .cons k v (VEntries.set r key val)

def VEntries.keys : VEntries → List String
  | .nil => []
  | .cons k _ r => k :: VEntries.keys r

/-- The serialization path: the names of the `SerializationStep`s
currently on the context stack (`Serialization._steps`; the serializer
component of each step carries no information used by any claim). -/
abbrev Stack := List String

/-- What `TypeDescriptor._cls` can hold: a class, `typing.Any`,
`typing.Union` (the origin of a union alias), `Ellipsis`, `NoneType`,
or an unsubstituted `TypeVar`. -/
inductive ClsVal where
  | any
  | unionMarker
  | ellipsisV
  | noneCls
  | cls (c : Nat)
  | tvarV (v : Nat)
  deriving DecidableEq

/-- Keys of `TypeDescriptor.parameters`: positional indices for
non-dataclass generics, type variables for dataclass generics. -/
inductive ParamKey where
  | idx (n : Nat)
  | var (v : Nat)
  deriving DecidableEq

/-- The exception taxonomy (`serious/errors.py` is not in the source
tree; constructors and payloads are modelled from the spec's error
taxonomy, §7).  `loadError`/`dumpError` carry their `from e` cause. -/
inductive Err where
  | notADataclass
  | modelContainsAnyE (c : Nat)
  | modelContainsUnionE (c : Nat)
  | unsupportedType (clsv : ClsVal)
  | missingField (c : Nat) (names : List String)
  | unexpectedItem (c : Nat) (names : List String)
  | typeMismatch (c : Nat)
  | validationErr
  | ctorTypeError
  | valueError
  | attributeError
  | recursionError
  | loadError (c : Nat) (stack : Stack) (data : Value) (cause : Err)
  | dumpError (o : Value) (stack : Stack) (cause : Err)
  deriving DecidableEq

def Err.isLoadError : Err → Bool
  | .loadError _ _ _ _ => true
  | _ => false

def Err.isDumpError : Err → Bool
  | .dumpError _ _ _ => true
  | _ => false

def Err.isMissingField : Err → Bool
  | .missingField _ _ => true
  | _ => false

/-- Result of one serialization step: the produced value together with
the context stack as the step left it (the stack is the only state a
step mutates). -/
abbrev StepRes := Except (Err × Stack) (Value × Stack)

/-- A declared dataclass field as reflection reports it: its name and
its declared default (`default` and `default_factory` are folded into
one optional value; `none` stands for `MISSING`). -/
structure FieldDef where
  name : String
  default : Option Value
  deriving DecidableEq

/-- The reflection environment for the value level: `dcFields c` is
`dataclasses.fields(c)` in declaration order, and `validator c` is the
optional `__validate__` hook of class `c`. -/
structure Env where
  dcFields : Nat → List FieldDef
  validator : Nat → Option (Value → Bool)

/-- Modelled from the spec: `serious/validation.py` is not in the
source tree.  Per §6, a record type may expose a zero-argument
validation hook; `validate` invokes it and surfaces a failure as
`ValidationError`, returning the value unchanged otherwise. -/
def validate (env : Env) (v : Value) : Except Err Value :=
  match v with
  | .vrecord c _ =>
      match env.validator c with
      | some p => if p v then .ok v else .error .validationErr
      | none => .ok v
  | _ => .ok v

/-- A bound field serializer: its `load` and `dump` take the value and
the current context stack and return the produced value with the stack
as they left it. -/
structure FieldSr where
  load : Value → Stack → StepRes
  dump : Value → Stack → StepRes

/-- `.[{field}]` — the path entry format of `SeriousModel.load`/`dump`. -/
def dotEntry (field : String) : String := ".[" ++ field ++ "]"

/-- `[{i}]` — the path entry format collection serializers use per item. -/
def idxEntry (i : Nat) : String := "[" ++ toString i ++ "]"

/-- `Loading.run`: enter the step (push), run the serializer's `load`,
validate the result, and pop.  `_entering` is a `@contextmanager` whose
body has no `try/finally`, so the `pop()` runs only when neither the
serializer nor `validate` raises; on an exception the pushed entry stays
on the stack. -/
def loadingRun (env : Env) (step : String) (sr : FieldSr) (v : Value)
    (st : Stack) : StepRes :=
  let st1 := st ++ [step]
  match sr.load v st1 with
  | .error es => .error es
  | .ok (res, st2) =>
      match validate env res with
      | .error e => .error (e, st2)
      | .ok r => .ok (r, st2.dropLast)

/-- `Dumping.run`: as `loadingRun` but without the validation call. -/
def dumpingRun (step : String) (sr : FieldSr) (v : Value)
    (st : Stack) : StepRes :=
  let st1 := st ++ [step]
  match sr.dump v st1 with
  | .error es => .error es
  | .ok (res, st2) => .ok (res, st2.dropLast)

/-- `_fields_missing_from(data, cls)`: the declared fields that are
absent from `data` and have neither a default nor a default factory. -/
def fieldsMissingFrom (env : Env) (data : VEntries) (c : Nat) :
    List FieldDef :=
  (env.dcFields c).filter
    (fun f => (data.lookup f.name).isNone && f.default.isNone)

/-- `_check_for_missing(cls, data)`: raises `MissingField` naming every
declared field absent from `data` — defaults are not consulted. -/
def checkForMissing (env : Env) (c : Nat) (data : VEntries) :
    Except Err Unit :=
  let missing := (env.dcFields c).filter (fun f => (data.lookup f.name).isNone)
  if missing.isEmpty then .ok () else .error (.missingField c (missing.map (·.name)))

/-- `_check_for_unexpected(cls, data)`: raises `UnexpectedItem` naming
every data key that is not a declared field. -/
def checkForUnexpected (env : Env) (c : Nat) (data : VEntries) :
    Except Err Unit :=
  let fieldNames := (env.dcFields c).map (·.name)
  let unexpected := data.keys.filter (fun k => ¬ fieldNames.contains k)
  if unexpected.isEmpty then .ok () else .error (.unexpectedItem c unexpected)

/-- A built `SeriousModel`: its dataclass, policy flags, and one
resolved serializer per field in declaration order.  (`allow_any` and
the serializer candidate list matter only at construction time and are
treated there.) -/
structure Model where
  cls : Nat
  allowMissing : Bool
  allowUnexpected : Bool
  fieldSerializers : List (String × FieldSr)

/-- The heap of dict objects live during a `load` call; references are
indices.  Only `SeriousModel.load` lines 117–124 mutate dicts, so the
heap makes the mutation target (`mut_data`, never the caller's `data`)
explicit. -/
abbrev Heap := List VEntries

def heapGet (h : Heap) (r : Nat) : VEntries := (h.get? r).getD .nil

def heapSet (h : Heap) (r : Nat) (key : String) (val : Value) : Heap :=
  h.set r ((heapGet h r).set key val)

/-- `SeriousModel.load` lines 117–124: `mut_data = dict(data)` — a
fresh copy — then either synthesize `None` for fields missing without a
default (`allow_missing`) or check for missing, then check for
unexpected keys.  Returns the reference of `mut_data` (or the raised
check error) together with the heap.  The `for` loop over the lazy
`_fields_missing_from` iterator is evaluated eagerly; this is equivalent
because dataclass field names are distinct, so the keys it inserts never
affect later membership tests of the filter. -/
def loadPrepare (env : Env) (m : Model) (h : Heap) (dataRef : Nat) :
    Except Err Nat × Heap :=
  let h1 := h ++ [heapGet h dataRef]
  let mutRef := h.length
  if m.allowMissing then
    let h2 := (fieldsMissingFrom env (heapGet h1 mutRef) m.cls).foldl
      (fun acc f => heapSet acc mutRef f.name .vnone) h1
    if ¬ m.allowUnexpected then
      match checkForUnexpected env m.cls (heapGet h2 mutRef) with
      | .error e => (.error e, h2)
      | .ok _ => (.ok mutRef, h2)
    else (.ok mutRef, h2)
  else
    match checkForMissing env m.cls (heapGet h1 mutRef) with
    | .error e => (.error e, h1)
    | .ok _ =>
        if ¬ m.allowUnexpected then
          match checkForUnexpected env m.cls (heapGet h1 mutRef) with
          | .error e => (.error e, h1)
          | .ok _ => (.ok mutRef, h1)
        else (.ok mutRef, h1)

/-- The `init_kwargs` comprehension of `SeriousModel.load`: for each
field serializer in declaration order, if the field is a key of
`mut_data`, run its `load` on the value under the path entry
`.[{field}]`; a raise aborts the comprehension. -/
def loadKwargs (env : Env) (srs : List (String × FieldSr))
    (mutData : VEntries) (st : Stack) :
    Except (Err × Stack) (List (String × Value) × Stack) :=
  match srs with
  | [] => .ok ([], st)
  | (name, sr) :: rest =>
      match mutData.lookup name with
      | none => loadKwargs env rest mutData st
      | some v =>
          match loadingRun env (dotEntry name) sr v st with
          | .error es => .error es
          | .ok (r, st1) =>
              match loadKwargs env rest mutData st1 with
              | .error es => .error es
              | .ok (kw, st2) => .ok ((name, r) :: kw, st2)

/-- `self._cls(**init_kwargs)`: the dataclass constructor takes each
declared field from the keyword arguments, falling back to its declared
default; a missing required argument is a `TypeError`. -/
def construct (env : Env) (c : Nat) (kwargs : List (String × Value)) :
    Except Err Value :=
  match (env.dcFields c).mapM
      (fun f =>
        match kwargs.lookup f.name with
        | some v => some (f.name, v)
        | none => f.default.map (fun d => (f.name, d))) with
  | some fs => .ok (.vrecord c (VEntries.ofList fs))
  | none => .error .ctorTypeError

/-- The `try` block of `SeriousModel.load` (lines 126–133): build the
keyword arguments, construct the dataclass, validate it. -/
def loadBody (env : Env) (m : Model) (mutData : VEntries) (st : Stack) :
    StepRes :=
  match loadKwargs env m.fieldSerializers mutData st with
  | .error es => .error es
  | .ok (kwargs, st1) =>
      match construct env m.cls kwargs with
      | .error e => .error (e, st1)
      | .ok result =>
          match validate env result with
          | .error e => .error (e, st1)
          | .ok _ => .ok (result, st1)

/-- `SeriousModel.load` on an already-checked mapping reference:
prepare `mut_data` (lines 117–124, before the `try`, so their raises are
never wrapped), run the body, and at the root call wrap any failure
except `ValidationError` into `LoadError(cls, loading.stack, data)` with
the failure as cause; nested calls re-raise as-is.  Returns the final
heap alongside the result. -/
def Model.loadHeap (env : Env) (m : Model) (h : Heap) (dataRef : Nat)
    (ctx : Option Stack) : StepRes × Heap :=
  let root := ctx.isNone
  let st0 := ctx.getD []
  match loadPrepare env m h dataRef with
  | (.error e, h1) => (.error (e, st0), h1)
  | (.ok mutRef, h1) =>
      match loadBody env m (heapGet h1 mutRef) st0 with
      | .ok r => (.ok r, h1)
      | .error (e, st1) =>
          if root then
            match e with
            | .validationErr => (.error (e, st1), h1)
            | _ =>
                (.error (.loadError m.cls st1 (.vdict (heapGet h1 dataRef)) e, st1), h1)
          else (.error (e, st1), h1)

/-- `SeriousModel.load`: `_check_is_instance(data, Mapping)` — a
non-mapping raises a type mismatch naming the model's class, before any
other step — then proceed on a heap holding the caller's dict. -/
def Model.load (env : Env) (m : Model) (data : Value)
    (ctx : Option Stack) : StepRes :=
  match data with
  | .vdict es => (Model.loadHeap env m [es] 0 ctx).1
  | _ => .error (.typeMismatch m.cls, ctx.getD [])

/-- The dict comprehension of `SeriousModel.dump`: for each field in
declaration order, read the attribute and run its serializer's `dump`
under the path entry `.[{field}]`. -/
def dumpFields (srs : List (String × FieldSr)) (fs : VEntries)
    (st : Stack) : Except (Err × Stack) (VEntries × Stack) :=
  match srs with
  | [] => .ok (.nil, st)
  | (name, sr) :: rest =>
      match fs.lookup name with
      | none => .error (.attributeError, st)
      | some v =>
          match dumpingRun (dotEntry name) sr v st with
          | .error es => .error es
          | .ok (r, st1) =>
              match dumpFields rest fs st1 with
              | .error es => .error es
              | .ok (d, st2) => .ok (.cons name r d, st2)

/-- `SeriousModel.dump`: `_check_is_instance(o, self._cls)` before the
`try`; the root call wraps any failure — `ValidationError` included,
there is no exemption on this path — into `DumpError(o, dumping.stack)`
with the failure as cause; nested calls re-raise as-is. -/
def Model.dump (env : Env) (m : Model) (o : Value)
    (ctx : Option Stack) : Except (Err × Stack) (VEntries × Stack) :=
  match o with
  | .vrecord c fs =>
      if c = m.cls then
        let root := ctx.isNone
        let st0 := ctx.getD []
        match dumpFields m.fieldSerializers fs st0 with
        | .ok r => .ok r
        | .error (e, st1) =>
            if root then .error (.dumpError o st1 e, st1)
            else .error (e, st1)
      else .error (.typeMismatch m.cls, ctx.getD [])
  | _ => .error (.typeMismatch m.cls, ctx.getD [])

/-! ### The concrete field-type universe

Field serializers live in `serious/serialization/serializers.py`, which
is referenced by `core.py` but absent from the source tree; the sibling
`field_serializers.py` of the previous layout carries the same leaf
serializers, and the universe below follows it: `PrimitiveSerializer`
(`str`/`int`/`bool`; `float` is omitted from the universe),
`OptionalSerializer`, `CollectionSerializer` and the nested-dataclass
serializer.  `FType` is a field's declared type. -/

inductive FType where
  | fint
  | fstr
  | fbool
  | fopt (t : FType)
  | flist (t : FType)
  | frec (c : Nat)
  deriving DecidableEq

/-- The value-level schema: the declared type of every field.  The
names and defaults must agree with `Env.dcFields` (see `EnvWF`). -/
structure Schema where
  env : Env
  ftypes : Nat → List (String × FType)

/-- Python `int(value)`: identity on ints, `False/True ↦ 0/1`, numeral
strings parse (detail semantics of `int(str)` beyond plain numerals are
elided), everything else raises. -/
def pyIntCoerce : Value → Except Err Value
  | .vint n => .ok (.vint n)
  | .vbool b => .ok (.vint (if b then 1 else 0))
  | .vstr s => match s.toInt? with
      | some n => .ok (.vint n)
      | none => .error .valueError
  | _ => .error .valueError

mutual
/-- Python `str(value)` never raises; the representation of composite
values is simplified (quoting details of `repr` inside containers are
elided — no claim depends on them). -/
def pyStrOf : Value → String
  | .vnone => "None"
  | .vint n => toString n
  | .vstr s => s
  | .vbool b => if b then "True" else "False"
  | .vlist xs => "[" ++ pyStrLs xs ++ "]"
  | .vdict es => "\x7b" ++ pyStrEs es ++ "\x7d"
  | .vrecord _ fs => "(" ++ pyStrEs fs ++ ")"
def pyStrLs : VList → String
  | .nil => ""
  | .cons v r => pyStrOf v ++ "," ++ pyStrLs r
def pyStrEs : VEntries → String
  | .nil => ""
  | .cons k v r => k ++ ":" ++ pyStrOf v ++ "," ++ pyStrEs r
end

def pyStrCoerce (v : Value) : Except Err Value := .ok (.vstr (pyStrOf v))

/-- Python `bool(value)`: truthiness, never raises. -/
def pyBoolCoerce : Value → Except Err Value
  | .vnone => .ok (.vbool false)
  | .vint n => .ok (.vbool (n ≠ 0))
  | .vstr s => .ok (.vbool (s ≠ ""))
  | .vbool b => .ok (.vbool b)
  | .vlist xs => .ok (.vbool (xs ≠ .nil))
  | .vdict es => .ok (.vbool (es ≠ .nil))
  | .vrecord _ _ => .ok (.vbool true)

/-- `PrimitiveSerializer`: both `load` and `dump` coerce through the
declared class constructor. -/
def primitiveSr (coerce : Value → Except Err Value) : FieldSr where
  load := fun v st => match coerce v with
    | .ok r => .ok (r, st)
    | .error e => .error (e, st)
  dump := fun v st => match coerce v with
    | .ok r => .ok (r, st)
    | .error e => .error (e, st)

/-- `OptionalSerializer`: `None ↦ None`, otherwise delegate to the
inner-type serializer (built untracked: no extra path entry). -/
def optionalSr (inner : FieldSr) : FieldSr where
  load := fun v st => match v with
    | .vnone => .ok (.vnone, st)
    | _ => inner.load v st
  dump := fun v st => match v with
    | .vnone => .ok (.vnone, st)
    | _ => inner.dump v st

/-- Per-item traversal of `CollectionSerializer.load`: each item is
processed under a `[{i}]` path entry with the load-side `run` (entry
popped only on success). -/
def collLoadItems (env : Env) (inner : FieldSr) :
    VList → Nat → Stack → Except (Err × Stack) (VList × Stack)
  | .nil, _, st => .ok (.nil, st)
  | .cons v r, i, st =>
      match loadingRun env (idxEntry i) inner v st with
      | .error es => .error es
      | .ok (x, st1) =>
          match collLoadItems env inner r (i + 1) st1 with
          | .error es => .error es
          | .ok (xs, st2) => .ok (.cons x xs, st2)

def collDumpItems (inner : FieldSr) :
    VList → Nat → Stack → Except (Err × Stack) (VList × Stack)
  | .nil, _, st => .ok (.nil, st)
  | .cons v r, i, st =>
      match dumpingRun (idxEntry i) inner v st with
      | .error es => .error es
      | .ok (x, st1) =>
          match collDumpItems inner r (i + 1) st1 with
          | .error es => .error es
          | .ok (xs, st2) => .ok (.cons x xs, st2)

/-- `CollectionSerializer` for `list`: per-item delegate, reconstructed
into the declared container (`field.type.cls(items)` = `list`).
Iteration of non-list values is elided — no claim exercises it. -/
def collectionSr (env : Env) (inner : FieldSr) : FieldSr where
  load := fun v st => match v with
    | .vlist xs =>
        (collLoadItems env inner xs 0 st).map (fun (ys, s) => (.vlist ys, s))
    | _ => .error (.valueError, st)
  dump := fun v st => match v with
    | .vlist xs =>
        (collDumpItems inner xs 0 st).map (fun (ys, s) => (.vlist ys, s))
    | _ => .error (.valueError, st)

/-- The serializer resolved for a field type, given a resolver for
nested-dataclass fields (first-fit dispatch on this universe lands on
exactly these kinds). -/
def mkFieldSrT (env : Env) (recSr : Nat → FieldSr) : FType → FieldSr
  | .fint => primitiveSr pyIntCoerce
  | .fstr => primitiveSr pyStrCoerce
  | .fbool => primitiveSr pyBoolCoerce
  | .fopt t => optionalSr (mkFieldSrT env recSr t)
  | .flist t => collectionSr env (mkFieldSrT env recSr t)
  | .frec c => recSr c

/-- The field serializers of the `SeriousModel` built for dataclass `c`
under the given nested-dataclass resolver. -/
def modelOfWith (S : Schema) (am au : Bool) (recSr : Nat → FieldSr)
    (c : Nat) : Model where
  cls := c
  allowMissing := am
  allowUnexpected := au
  fieldSerializers :=
    (S.ftypes c).map (fun nt => (nt.1, mkFieldSrT S.env recSr nt.2))

/-- The nested-dataclass (`DataclassSerializer`) resolver: delegate to
the child `SeriousModel`'s `load`/`dump` with the current context.  The
fuel bounds nesting through dataclass fields; Python's recursion is
bounded by the data instead, so theorems supply enough fuel for the
values at hand. -/
def recSrF (S : Schema) (am au : Bool) : Nat → Nat → FieldSr
  | 0, _ =>
      { load := fun _ st => .error (.recursionError, st)
        dump := fun _ st => .error (.recursionError, st) }
  | fuel + 1, c =>
      { load := fun v st =>
          Model.load S.env (modelOfWith S am au (recSrF S am au fuel) c) v (some st)
        dump := fun v st =>
          (Model.dump S.env (modelOfWith S am au (recSrF S am au fuel) c) v
            (some st)).map (fun (d, s) => (.vdict d, s)) }

/-- The `SeriousModel` the schema yields for dataclass `c` (child
models share the root's policy flags). -/
def modelOf (S : Schema) (am au : Bool) (fuel c : Nat) : Model :=
  modelOfWith S am au (recSrF S am au fuel) c

/-! ### Type descriptors (`serious/descriptors.py`)

Python type expressions are reified as `PyType`; reflection on classes
(`is_dataclass`, `get_type_hints`, `__orig_bases__`, `__parameters__`,
`issubclass` against the built-in containers) is a class table `TEnv`.
`describe`/`_describe_generic` recurse through that table (a class's
`__orig_bases__` mention other classes), so they carry fuel. -/

/-- A Python type expression: `Any`, `None`'s type, `...`, a bare
class, a parameterized generic alias, a `Union[...]` alias
(`Optional[X]` is the two-variant union whose second argument is
`NoneType`), or a type variable. -/
inductive PyType where
  | any
  | noneT
  | ellipsisT
  | cls (c : Nat)
  | generic (c : Nat) (args : List PyType)
  | union (args : List PyType)
  | tvar (v : Nat)

mutual
/-- `TypeDescriptor`: frozen, structurally compared.  `parameters` is
the `FrozenDict`; it is kept as an ordered association list (its
construction order is deterministic, Python's order-insensitive dict
equality never distinguishes descriptors produced by `describe`). -/
inductive TypeDescriptor where
  | mk (clsv : ClsVal) (parameters : Params) (is_optional : Bool)
       (is_dc : Bool)
  deriving DecidableEq
inductive Params where
  | nil
  | cons (k : ParamKey) (d : TypeDescriptor) (rest : Params)
  deriving DecidableEq
end

def TypeDescriptor.clsv : TypeDescriptor → ClsVal
  | .mk c _ _ _ => c

def TypeDescriptor.parameters : TypeDescriptor → Params
  | .mk _ p _ _ => p

def TypeDescriptor.is_optional : TypeDescriptor → Bool
  | .mk _ _ o _ => o

def TypeDescriptor.is_dc : TypeDescriptor → Bool
  | .mk _ _ _ d => d

def Params.ofList : List (ParamKey × TypeDescriptor) → Params
  | [] => .nil
  | (k, d) :: r => .cons k d (Params.ofList r)

def Params.values : Params → List TypeDescriptor
  | .nil => []
  | .cons _ d r => d :: Params.values r

def Params.keys : Params → List ParamKey
  | .nil => []
  | .cons k _ r => k :: Params.keys r

def Params.hasKey (p : Params) (key : ParamKey) : Bool :=
  p.keys.contains key

def Params.append : Params → Params → Params
  | .nil, q => q
  | .cons k d r, q => .cons k d (Params.append r q)

/-- Reflection data of one class. -/
structure ClassInfo where
  isDataclass : Bool
  /-- `get_type_hints` restricted to declared fields, in field order. -/
  fieldTypes : List (String × PyType)
  /-- `__orig_bases__` (empty ⇔ the attribute is absent). -/
  origBases : List PyType
  /-- `__parameters__` of the class when used as a generic origin. -/
  typeParams : List Nat
  /-- The first of `list/set/frozenset/tuple/dict` the class is a
  subclass of, if any (drives `_get_default_generic_params`). -/
  container : Option Nat

/-- The class table for the type level. -/
structure TEnv where
  classes : Nat → ClassInfo

def TEnv.isDc (tEnv : TEnv) : ClsVal → Bool
  | .cls c => (tEnv.classes c).isDataclass
  | _ => false

/-- `_is_optional(cls)`: a `Union` alias with exactly two arguments
whose second is `NoneType`. -/
def isOptionalType : PyType → Bool
  | .union [_, .noneT] => true
  | _ => false

def unwrapOptional : PyType → PyType
  | .union (a :: _) => a
  | t => t

/-- `generic_params.get(type_)`: dictionary keys are type variables or
positional indices; only a type-variable key can equal a type. -/
def gpLookup : Params → PyType → Option TypeDescriptor
  | .nil, _ => none
  | .cons k d r, t =>
      match k, t with
      | .var v, .tvar w => if v = w then some d else gpLookup r t
      | _, _ => gpLookup r t

def anyTypeDesc : TypeDescriptor := .mk .any .nil false false

/-- `_generic_params`/`_get_default_generic_params`: implicit
parameters of the bare built-in containers (container kind 0–2:
`list`/`set`/`frozenset`, 3: `tuple`, 4: `dict`). -/
def defaultGenericParams (tEnv : TEnv) (c : Nat) : Params :=
  match (tEnv.classes c).container with
  | some 0 | some 1 | some 2 => .cons (.idx 0) anyTypeDesc .nil
  | some 3 => .cons (.idx 0) anyTypeDesc
      (.cons (.idx 1) (.mk .ellipsisV .nil false false) .nil)
  | some 4 => .cons (.idx 0) anyTypeDesc (.cons (.idx 1) anyTypeDesc .nil)
  | _ => .nil

/-- `dict(ChainMap(*maps))`: per-key, the first map containing the key
wins.  (The key order of the materialized dict is simplified to
first-occurrence order; order never enters descriptor equality for
descriptors compared by the source.) -/
def chainMerge : List Params → Params
  | [] => .nil
  | p :: rest => merge p (chainMerge rest)
where
  merge : Params → Params → Params
    | .nil, q => q
    | .cons k d r, q => .cons k d (dropKey k (merge r q))
  dropKey : ParamKey → Params → Params
    | _, .nil => .nil
    | key, .cons k d r =>
        if k = key then dropKey key r else .cons k d (dropKey key r)

mutual
/-- `describe(type_, generic_params)`: return the bound descriptor when
the type is a substituted type variable, else build one. -/
def describe (tEnv : TEnv) : Nat → PyType → Params → Option TypeDescriptor
  | 0, _, _ => none
  | fuel + 1, t, gp =>
      match gpLookup gp t with
      | some d => some d
      | none => describeGeneric tEnv fuel t gp

/-- `_describe_generic(cls, generic_params)`: unwrap `Optional`, then:
a bare dataclass with `__orig_bases__` takes the left-to-right
first-wins merge of its bases' parameters; a parameterized alias is
unwrapped to its origin (type-variable bindings for dataclass origins,
positional parameters otherwise, with unbound type-variable arguments
described as `Any`); a bare class gets the built-in containers' default
parameters; anything else has no parameters. -/
def describeGeneric (tEnv : TEnv) :
    Nat → PyType → Params → Option TypeDescriptor
  | 0, _, _ => none
  | fuel + 1, t0, gp =>
      let isOpt := isOptionalType t0
      let t := if isOpt then unwrapOptional t0 else t0
      match t with
      | .cls c =>
          let info := tEnv.classes c
          if ¬ info.origBases.isEmpty && info.isDataclass then
            match describeBases tEnv fuel info.origBases gp with
            | none => none
            | some ps =>
                some (.mk (.cls c) (chainMerge ps) isOpt true)
          else
            some (.mk (.cls c) (defaultGenericParams tEnv c) isOpt
              info.isDataclass)
      | .generic c args =>
          let info := tEnv.classes c
          if info.isDataclass then
            match describeArgs tEnv fuel args gp with
            | none => none
            | some ds =>
                some (.mk (.cls c)
                  (Params.ofList ((info.typeParams.zip ds).map
                    (fun p => (ParamKey.var p.1, p.2)))) isOpt true)
          else
            match describeArgsAnyTVar tEnv fuel args gp with
            | none => none
            | some ds =>
                some (.mk (.cls c)
                  (Params.ofList (ds.enum.map
                    (fun p => (ParamKey.idx p.1, p.2)))) isOpt false)
      | .union args =>
          match describeArgsAnyTVar tEnv fuel args gp with
          | none => none
          | some ds =>
              some (.mk .unionMarker
                (Params.ofList (ds.enum.map
                  (fun p => (ParamKey.idx p.1, p.2)))) isOpt false)
      | .any => some (.mk .any .nil isOpt false)
      | .noneT => some (.mk .noneCls .nil isOpt false)
      | .ellipsisT => some (.mk .ellipsisV .nil isOpt false)
      | .tvar v => some (.mk (.tvarV v) .nil isOpt false)

/-- The bases' parameter dictionaries
(`_describe_generic(base, generic_params).parameters` per base). -/
def describeBases (tEnv : TEnv) :
    Nat → List PyType → Params → Option (List Params)
  | 0, _, _ => none
  | _, [], _ => some []
  | fuel + 1, b :: rest, gp =>
      match describeGeneric tEnv fuel b gp with
      | none => none
      | some d =>
          match describeBases tEnv fuel rest gp with
          | none => none
          | some ds => some (d.parameters :: ds)

/-- `_collect_type_vars`' argument descriptors (`describe(arg, ...)`). -/
def describeArgs (tEnv : TEnv) :
    Nat → List PyType → Params → Option (List TypeDescriptor)
  | 0, _, _ => none
  | _, [], _ => some []
  | fuel + 1, a :: rest, gp =>
      match describe tEnv fuel a gp with
      | none => none
      | some d =>
          match describeArgs tEnv fuel rest gp with
          | none => none
          | some ds => some (d :: ds)

/-- Argument descriptors of a non-dataclass generic: a type-variable
argument is described as `Any` (`Any if type(arg) is TypeVar else arg`,
regardless of any binding). -/
def describeArgsAnyTVar (tEnv : TEnv) :
    Nat → List PyType → Params → Option (List TypeDescriptor)
  | 0, _, _ => none
  | _, [], _ => some []
  | fuel + 1, a :: rest, gp =>
      let a1 := match a with
        | .tvar _ => PyType.any
        | _ => a
      match describe tEnv fuel a1 gp with
      | none => none
      | some d =>
          match describeArgsAnyTVar tEnv fuel rest gp with
          | none => none
          | some ds => some (d :: ds)
end

/-- `TypeDescriptor.fields`: empty unless the underlying class is a
dataclass; otherwise each declared field's type described against the
descriptor's own parameters. -/
def descFields (tEnv : TEnv) (fuel : Nat) (d : TypeDescriptor) :
    Option (List (String × TypeDescriptor)) :=
  match d.clsv with
  | .cls c =>
      if (tEnv.classes c).isDataclass then
        (tEnv.classes c).fieldTypes.mapM
          (fun nt => (describe tEnv fuel nt.2 d.parameters).map (nt.1, ·))
      else some []
  | _ => some []

mutual
/-- `DescTypes.scan`: collect the classes of every descriptor reachable
through `parameters` then `fields`, cycle-safe through the shared
`known` list — a descriptor already listed contributes nothing.  The
appended `known` is threaded back, mirroring the mutated Python list. -/
def scanDesc (tEnv : TEnv) :
    Nat → TypeDescriptor → List TypeDescriptor →
    Option (List ClsVal × List TypeDescriptor)
  | 0, _, _ => none
  | fuel + 1, d, known =>
      if d ∈ known then some ([], known)
      else
        let known1 := known ++ [d]
        match scanList tEnv fuel d.parameters.values known1 with
        | none => none
        | some (ts1, known2) =>
            match descFields tEnv fuel d with
            | none => none
            | some flds =>
                match scanList tEnv fuel (flds.map (·.2)) known2 with
                | none => none
                | some (ts2, known3) =>
                    some (ts1 ++ ts2 ++ [d.clsv], known3)

def scanList (tEnv : TEnv) :
    Nat → List TypeDescriptor → List TypeDescriptor →
    Option (List ClsVal × List TypeDescriptor)
  | 0, _, _ => none
  | _, [], known => some ([], known)
  | fuel + 1, d :: rest, known =>
      match scanDesc tEnv fuel d known with
      | none => none
      | some (ts1, known1) =>
          match scanList tEnv fuel rest known1 with
          | none => none
          | some (ts2, known2) => some (ts1 ++ ts2, known2)
end

/-- `scan_types(desc)` (imported by `core.py` as `_scan_types`): the
flat class list of the descriptor tree, starting from no known
descriptors. -/
def scanTypes (tEnv : TEnv) (fuel : Nat) (d : TypeDescriptor) :
    Option (List ClsVal) :=
  (scanDesc tEnv fuel d []).map (·.1)

/-! ### Model construction (`SeriousModel.__init__`, `find_serializer`) -/

/-- A candidate field-serializer kind: its `fits` predicate and an
opaque tag identifying the kind; instantiating the kind on a descriptor
is represented by the pair `(tag, descriptor)`. -/
structure Kind where
  tag : Nat
  fits : TypeDescriptor → Bool

/-- `_find_serializer`: the first kind, in the caller-supplied order,
whose `fits` holds, instantiated on the descriptor. -/
def findSerializerOpt (kinds : List Kind) (d : TypeDescriptor) :
    Option (Nat × TypeDescriptor) :=
  (kinds.find? (·.fits d)).map (fun k => (k.tag, d))

/-- `find_serializer`: `_check_present` (modelled from the spec —
`serious/preconditions.py` is not in the source tree) raises the
`Type "..." is not supported` error when no kind fits. -/
def findSerializer (kinds : List Kind) (d : TypeDescriptor) :
    Except Err (Nat × TypeDescriptor) :=
  match findSerializerOpt kinds d with
  | some s => .ok s
  | none => .error (.unsupportedType d.clsv)

/-- The field-serializer comprehension of `__init__` line 104: resolve
each field in declaration order, aborting on the first raise. -/
def resolveSrs (kinds : List Kind) :
    List (String × TypeDescriptor) →
    Except Err (List (String × Nat × TypeDescriptor))
  | [] => .ok []
  | (n, fd) :: rest =>
      match findSerializer kinds fd with
      | .error e => .error e
      | .ok s =>
          match resolveSrs kinds rest with
          | .error e => .error e
          | .ok ss => .ok ((n, s) :: ss)

/-- `SeriousModel.__init__` (lines 92–104): require a dataclass, scan
the descriptor's type set, reject `Any` (when not allowed) and then
`Union`, and resolve one serializer per declared field, in declaration
order, failing on the first field no candidate fits. -/
def seriousInit (tEnv : TEnv) (fuel : Nat) (kinds : List Kind)
    (allowAny : Bool) (desc : TypeDescriptor) :
    Except Err (List (String × Nat × TypeDescriptor)) :=
  match desc.clsv with
  | .cls c =>
      if (tEnv.classes c).isDataclass then
        match scanTypes tEnv fuel desc with
        | none => .error .recursionError
        | some allTypes =>
            if ¬ allowAny && allTypes.contains .any then
              .error (.modelContainsAnyE c)
            else if allTypes.contains .unionMarker then
              .error (.modelContainsUnionE c)
            else
              match descFields tEnv fuel desc with
              | none => .error .recursionError
              | some flds => resolveSrs kinds flds
      else .error .notADataclass
  | _ => .error .notADataclass

/-! ### The child-model registry discipline (`child_model`)

The nested-dataclass field serializer lives in the serializers module
absent from the source tree; per the spec (§4.3) it obtains the child
`SeriousModel` through `child_model` eagerly while the parent model's
fields are being resolved, after the optional serializer unwrapped
`Optional`.  The skeleton below models exactly the recursion and
registry discipline of `__init__` lines 103–104 and `child_model`
lines 164–175: the root registers itself before resolving fields, but a
child is added to the shared registry only *after* its construction
returns.  The construction-time checks of lines 92–97 (settled through
`seriousInit`) do not affect the recursion and are elided here.  The
registry is the list of registered descriptors; `rfuel` bounds the
nesting of `SeriousModel.__init__` calls (Python's stack depth). -/

def TypeDescriptor.withOptional : TypeDescriptor → Bool → TypeDescriptor
  | .mk c p _ d, b => .mk c p b d

mutual
/-- `SeriousModel.__init__` lines 103–104: self-register only when no
registry was supplied (the root), then resolve every field's
serializer. -/
def seriousInitRec (tEnv : TEnv) (dfuel : Nat) :
    Nat → TypeDescriptor → Option (List TypeDescriptor) →
    Except Err (List TypeDescriptor)
  | 0, _, _ => .error .recursionError
  | rfuel + 1, desc, reg? =>
      let reg := match reg? with
        | none => [desc]
        | some r => r
      match descFields tEnv dfuel desc with
      | none => .error .recursionError
      | some flds => resolveFields tEnv dfuel rfuel (flds.map (·.2)) reg
termination_by r d g => (r, 0, 0)

def resolveFields (tEnv : TEnv) (dfuel : Nat) :
    Nat → List TypeDescriptor → List TypeDescriptor →
    Except Err (List TypeDescriptor)
  | _, [], reg => .ok reg
  | rfuel, fd :: rest, reg =>
      match resolveFieldSr tEnv dfuel rfuel fd reg with
      | .error e => .error e
      | .ok reg1 => resolveFields tEnv dfuel rfuel rest reg1
termination_by r fds g => (r, 3, fds.length)

/-- Modelled from the spec: the serializers module is absent from the
source tree; per §4.3 the optional serializer holds the unwrapped
inner type's serializer and a nested-dataclass field eagerly obtains
its child model; leaf kinds resolve without recursion. -/
def resolveFieldSr (tEnv : TEnv) (dfuel : Nat) :
    Nat → TypeDescriptor → List TypeDescriptor →
    Except Err (List TypeDescriptor)
  | rfuel, fd, reg =>
      let fd1 := if fd.is_optional then fd.withOptional false else fd
      if fd1.is_dc then childModel tEnv dfuel rfuel fd1 reg
      else .ok reg
termination_by r fd g => (r, 2, 0)

/-- `child_model` lines 164–175: reuse a registered model; otherwise
construct the child (passing the shared registry) and register it only
once construction has returned. -/
def childModel (tEnv : TEnv) (dfuel : Nat) :
    Nat → TypeDescriptor → List TypeDescriptor →
    Except Err (List TypeDescriptor)
  | rfuel, fd, reg =>
      if fd ∈ reg then .ok reg
      else
        match seriousInitRec tEnv dfuel rfuel fd (some reg) with
        | .error e => .error e
        | .ok reg1 => .ok (reg1 ++ [fd])
termination_by r fd g => (r, 1, 0)
end

/-- Building the root model: `SeriousModel(descriptor, ...)` with no
registry supplied. -/
def buildRoot (tEnv : TEnv) (dfuel rfuel : Nat) (desc : TypeDescriptor) :
    Except Err (List TypeDescriptor) :=
  seriousInitRec tEnv dfuel rfuel desc none

/-! ### Valid instances and nesting depth -/

def Value.isInt : Value → Bool
  | .vint _ => true
  | _ => false

def Value.isStr : Value → Bool
  | .vstr _ => true
  | _ => false

def Value.isBool : Value → Bool
  | .vbool _ => true
  | _ => false

def Value.isNone : Value → Bool
  | .vnone => true
  | _ => false

mutual
/-- A value is a valid instance of a field type: scalars match their
declared class exactly, optionals admit `None`, lists check items, and
a dataclass value has the declared class and carries exactly the
declared fields in declaration order, each valid, and passes its
class's validator. -/
def isValidInstance (S : Schema) : FType → Value → Bool
  | .fint, v => v.isInt
  | .fstr, v => v.isStr
  | .fbool, v => v.isBool
  | .fopt t, v => v.isNone || isValidInstance S t v
  | .flist t, .vlist xs => validItems S t xs
  | .flist _, _ => false
  | .frec c, .vrecord c2 fs => c == c2 && validRecord S (.vrecord c2 fs)
  | .frec _, _ => false
termination_by ft v => (sizeOf v, 1, sizeOf ft)

def validItems (S : Schema) : FType → VList → Bool
  | _, .nil => true
  | t, .cons x r => isValidInstance S t x && validItems S t r
termination_by t xs => (sizeOf xs, 0, sizeOf t)

def validRecord (S : Schema) : Value → Bool
  | .vrecord c fs =>
      validFields S (S.ftypes c) fs &&
      (match S.env.validator c with
       | some p => p (.vrecord c fs)
       | none => true)
  | _ => false
termination_by v => (sizeOf v, 0, 0)

def validFields (S : Schema) : List (String × FType) → VEntries → Bool
  | [], .nil => true
  | (n, ft) :: rest, .cons k v r =>
      n == k && isValidInstance S ft v && validFields S rest r
  | _, _ => false
termination_by fts fs => (sizeOf fs, 2, 0)
end

def VEntries.valuesList : VEntries → List Value
  | .nil => []
  | .cons _ v r => v :: VEntries.valuesList r

/-- The field-level round-trip property: at any stack, dumping yields a
value that loads back to the original, with the stack preserved, and
the dump of a non-`None` value is non-`None`. -/
def RTF (S : Schema) (am au : Bool) (fuel : Nat) (ft : FType) (v : Value) :
    Prop :=
  ∀ st : Stack, ∃ d : Value,
    (mkFieldSrT S.env (recSrF S am au fuel) ft).dump v st = .ok (d, st) ∧
    (mkFieldSrT S.env (recSrF S am au fuel) ft).load d st = .ok (v, st) ∧
    (v ≠ .vnone → d ≠ .vnone)

mutual
/-- The dataclass-nesting depth of a value: how many `SeriousModel`
levels a load/dump of it visits. -/
def recDepth : Value → Nat
  | .vrecord _ fs => 1 + recDepthEs fs
  | .vlist xs => recDepthLs xs
  | .vdict es => recDepthEs es
  | _ => 0
termination_by v => sizeOf v

def recDepthLs : VList → Nat
  | .nil => 0
  | .cons v r => max (recDepth v) (recDepthLs r)
termination_by xs => sizeOf xs

def recDepthEs : VEntries → Nat
  | .nil => 0
  | .cons _ v r => max (recDepth v) (recDepthEs r)
termination_by es => sizeOf es
end

/-- The schema agrees with the reflection environment: per class, the
typed field list carries exactly the declared field names in
declaration order, without duplicates. -/
def SchemaWF (S : Schema) : Prop :=
  ∀ c, (S.ftypes c).map (·.1) = (S.env.dcFields c).map (·.name) ∧
    ((S.ftypes c).map (·.1)).Nodup

/-! ### Concrete instances used by counterexamples and witnesses -/

/-- The `Student` schema of the spec's §8 example:
`{id: int, name: str = "student"}`. -/
def studentEnv : Env where
  dcFields := fun c =>
    if c = 0 then [⟨"id", none⟩, ⟨"name", some (.vstr "student")⟩] else []
  validator := fun _ => none

def studentSchema : Schema where
  env := studentEnv
  ftypes := fun c => if c = 0 then [("id", .fint), ("name", .fstr)] else []

def studentData : VEntries := .cons "id" (.vint 1) .nil

/-- A schema with a single `Optional[int]` field. -/
def optEnv : Env where
  dcFields := fun _ => [⟨"x", none⟩]
  validator := fun _ => none

def optSchema : Schema where
  env := optEnv
  ftypes := fun _ => [("x", .fopt .fint)]

/-- A self-referential schema: `Node {a : int, b : Optional[Node]}`. -/
def nodeEnv : Env where
  dcFields := fun _ => [⟨"a", none⟩, ⟨"b", none⟩]
  validator := fun _ => none

def nodeSchema : Schema where
  env := nodeEnv
  ftypes := fun _ => [("a", .fint), ("b", .fopt (.frec 0))]

def nodeLeaf : Value :=
  .vrecord 0 (.cons "a" (.vint 2) (.cons "b" .vnone .nil))

def nodeTwo : Value :=
  .vrecord 0 (.cons "a" (.vint 1) (.cons "b" nodeLeaf .nil))

/-- A field serializer that raises `ValidationError` from both
directions (as a metadata-declared or custom serializer may). -/
def validationRaisingSr : FieldSr where
  load := fun _ st => .error (.validationErr, st)
  dump := fun _ st => .error (.validationErr, st)

/-- A field serializer that raises a plain `ValueError`. -/
def failingSr : FieldSr where
  load := fun _ st => .error (.valueError, st)
  dump := fun _ st => .error (.valueError, st)

def xEnv : Env where
  dcFields := fun _ => [⟨"x", none⟩]
  validator := fun _ => none

/-- A model whose only field serializer raises `ValidationError`. -/
def mValidationField : Model where
  cls := 0
  allowMissing := false
  allowUnexpected := false
  fieldSerializers := [("x", validationRaisingSr)]

/-- A model whose only field serializer raises `ValueError`. -/
def mFailingField : Model where
  cls := 0
  allowMissing := false
  allowUnexpected := false
  fieldSerializers := [("x", failingSr)]

def xRecord : Value := .vrecord 0 (.cons "x" (.vint 1) .nil)

def xData : VEntries := .cons "x" (.vint 1) .nil

/-- A class table entry for a plain class. -/
def plainCI : ClassInfo where
  isDataclass := false
  fieldTypes := []
  origBases := []
  typeParams := []
  container := none

/-- Type table with a dataclass `0` holding an `Any` field and a
`Union[cls 1, cls 2]` field. -/
def tEnvAnyUnion : TEnv where
  classes := fun c =>
    if c = 0 then
      { plainCI with
        isDataclass := true
        fieldTypes := [("a", .any), ("u", .union [.cls 1, .cls 2])] }
    else plainCI

def descAnyUnion : TypeDescriptor := .mk (.cls 0) .nil false true

/-- Type table for `A {b : B}`, `B {next : Optional[B]}` — a record
cycle that does not pass through the root. -/
def tEnvAB : TEnv where
  classes := fun c =>
    if c = 0 then { plainCI with isDataclass := true, fieldTypes := [("b", .cls 1)] }
    else if c = 1 then
      { plainCI with
        isDataclass := true
        fieldTypes := [("next", .union [.cls 1, .noneT])] }
    else plainCI

def descA : TypeDescriptor := .mk (.cls 0) .nil false true

def descB : TypeDescriptor := .mk (.cls 1) .nil false true

/-- Type table with only plain classes. -/
def tEnvPlain : TEnv where
  classes := fun _ => plainCI

/-- Type table with one plain dataclass `0` with an `int`-like field. -/
def tEnvOneField : TEnv where
  classes := fun c =>
    if c = 0 then { plainCI with isDataclass := true, fieldTypes := [("x", .cls 1)] }
    else plainCI

/-- A kind that fits nothing. -/
def kindNone : Kind where
  tag := 0
  fits := fun _ => false

/-- A kind that fits everything. -/
def kindAll : Kind where
  tag := 1
  fits := fun _ => true

/-- A kind that fits exactly class `1` descriptors. -/
def kindCls1 : Kind where
  tag := 2
  fits := fun d => d.clsv == .cls 1

/-- The type re-described when `describe(d.cls)` is called on a
descriptor's underlying `_cls` attribute. -/
def clsValType : ClsVal → PyType
  | .any => .any
  | .unionMarker => .union []
  | .ellipsisV => .ellipsisT
  | .noneCls => .noneT
  | .cls c => .cls c
  | .tvarV v => .tvar v

/-- The names `_check_for_missing` reports: every declared field absent
from the data, defaults notwithstanding. -/
def missingNames (env : Env) (c : Nat) (es : VEntries) : List String :=
  ((env.dcFields c).filter (fun f => (es.lookup f.name).isNone)).map (·.name)

/-- The content of `mut_data` after the `allow_missing` synthesis loop:
the data with `None` appended under each absent no-default field. -/
def synthesized (env : Env) (c : Nat) (es : VEntries) : VEntries :=
  (fieldsMissingFrom env es c).foldl (fun d f => d.set f.name .vnone) es

/-- The field serializers `modelOf` resolves for a typed field list. -/
def mkSrs (S : Schema) (am au : Bool) (fuel : Nat)
    (fts : List (String × FType)) : List (String × FieldSr) :=
  fts.map (fun nt => (nt.1, mkFieldSrT S.env (recSrF S am au fuel) nt.2))

/-- A serializer none of whose outcomes is an already-wrapped
`LoadError`/`DumpError` (true of every serializer the library ships:
only the root calls construct those). -/
def SrClean (sr : FieldSr) : Prop :=
  (∀ v st e st2, sr.load v st = .error (e, st2) →
    e.isLoadError = false ∧ e.isDumpError = false) ∧
  (∀ v st e st2, sr.dump v st = .error (e, st2) →
    e.isLoadError = false ∧ e.isDumpError = false)

/-- All of a model's field serializers are clean. -/
def ModelClean (m : Model) : Prop :=
  ∀ p ∈ m.fieldSerializers, SrClean p.2

/-! ## Theorems -/

theorem heapGet_append_self (h : Heap) (x : VEntries) (r : Nat)
    (hr : r < h.length) : heapGet (h ++ [x]) r = heapGet h r := by
  simp [heapGet, List.getElem?_append_left hr]

theorem heapGet_set_ne (h : Heap) (i j : Nat) (k : String) (v : Value)
    (hij : i ≠ j) : heapGet (heapSet h i k v) j = heapGet h j := by
  simp [heapGet, heapSet, List.getElem?_set_ne hij]

theorem heapGet_foldl_set_ne (fs : List FieldDef) (i j : Nat) (hij : i ≠ j)
    (h : Heap) :
    heapGet (fs.foldl (fun acc f => heapSet acc i f.name .vnone) h) j
      = heapGet h j := by
  induction fs generalizing h with
  | nil => rfl
  | cons f r ih => rw [List.foldl_cons, ih, heapGet_set_ne _ _ _ _ _ hij]

/-- Whatever branch the preparation takes, the heap it returns is the
allocation of the copy, possibly with the synthesis writes folded onto
the copy's slot. -/
theorem loadPrepare_snd (env : Env) (m : Model) (h : Heap) (r : Nat) :
    (loadPrepare env m h r).2 = h ++ [heapGet h r] ∨
    (loadPrepare env m h r).2 =
      (fieldsMissingFrom env (heapGet (h ++ [heapGet h r]) h.length) m.cls).foldl
        (fun acc f => heapSet acc h.length f.name .vnone) (h ++ [heapGet h r]) := by
  unfold loadPrepare
  cases ham : m.allowMissing with
  | true =>
      refine .inr ?_
      rw [if_pos (by simp [ham])]
      cases hau : m.allowUnexpected with
      | true => simp [hau]
      | false =>
          rw [if_pos (by simp [hau])]
          split <;> rfl
  | false =>
      refine .inl ?_
      rw [if_neg (by simp [ham])]
      split
      · rfl
      · cases hau : m.allowUnexpected with
        | true => simp [hau]
        | false =>
            rw [if_pos (by simp [hau])]
            split <;> rfl

/-- `Model.loadHeap` performs no dict writes beyond the preparation. -/
theorem loadHeap_snd (env : Env) (m : Model) (h : Heap) (r : Nat)
    (ctx : Option Stack) :
    (Model.loadHeap env m h r ctx).2 = (loadPrepare env m h r).2 := by
  unfold Model.loadHeap
  rcases hq : loadPrepare env m h r with ⟨res, h1⟩
  cases res with
  | error e => rfl
  | ok mutRef =>
      dsimp only
      rcases hb : loadBody env m (heapGet h1 mutRef) (ctx.getD []) with ⟨e, st1⟩ | rr
      · cases ctx <;> cases e <;> rfl
      · rfl

/-- Lines 117–124 of `SeriousModel.load` write only to the fresh
`mut_data` object, never to the caller's dict. -/
theorem loadPrepare_preserves (env : Env) (m : Model) (h : Heap) (r : Nat)
    (hr : r < h.length) :
    heapGet ((loadPrepare env m h r).2) r = heapGet h r := by
  have hne : h.length ≠ r := (Nat.ne_of_lt hr).symm
  have happ : heapGet (h ++ [heapGet h r]) r = heapGet h r :=
    heapGet_append_self h _ r hr
  rcases loadPrepare_snd env m h r with h2 | h2 <;> rw [h2]
  · exact happ
  · rw [heapGet_foldl_set_ne _ _ _ hne]
    exact happ

/-- C10: `SeriousModel.load` never mutates the caller's input mapping:
`mut_data = dict(data)` is a private copy and every write targets it,
so the caller's dict object is identical after the call, whether the
load succeeds or fails. -/
theorem c10_load_preserves_caller (env : Env) (m : Model) (h : Heap)
    (r : Nat) (ctx : Option Stack) (hr : r < h.length) :
    heapGet ((Model.loadHeap env m h r ctx).2) r = heapGet h r := by
  rw [loadHeap_snd]
  exact loadPrepare_preserves env m h r hr

/-- C10 witness: loading `{}` with `allow_missing=True` synthesizes
`x: None` on the copy while the caller's empty dict stays empty. -/
theorem c10_witness :
    (0 : Nat) < 1 ∧
    heapGet ((Model.loadHeap optEnv (modelOf optSchema true false 1 0)
      [VEntries.nil] 0 none).2) 0 = VEntries.nil :=
  ⟨by decide,
    c10_load_preserves_caller optEnv (modelOf optSchema true false 1 0)
      [VEntries.nil] 0 none (by decide)⟩

/-- C3 counterexample: loading `{"id": 1}` into
`{id: int, name: str = "student"}` with `allow_missing=True` yields
`(1, "student")` — the declared default is applied, because only
no-default fields are synthesized as `None` — not the claimed
`(1, None)`. -/
theorem c3_counterexample :
    Model.load studentEnv (modelOf studentSchema true false 1 0)
      (.vdict studentData) none
      = .ok (.vrecord 0 (.cons "id" (.vint 1)
          (.cons "name" (.vstr "student") .nil)), []) ∧
    Value.vrecord 0 (.cons "id" (.vint 1)
        (.cons "name" (.vstr "student") .nil))
      ≠ .vrecord 0 (.cons "id" (.vint 1) (.cons "name" .vnone .nil)) :=
  ⟨rfl, by decide⟩

/-- C3 amended: loading `{"id": 1}` with `allow_missing=True` yields
`(1, "student")`: the absent `name` has a declared default, so it is
not synthesized as `None` and the constructor's default applies. -/
theorem c3_amended :
    Model.load studentEnv (modelOf studentSchema true false 1 0)
      (.vdict studentData) none
      = .ok (.vrecord 0 (.cons "id" (.vint 1)
          (.cons "name" (.vstr "student") .nil)), []) := rfl

/-- C2 counterexample: with `allow_missing=False`, loading `{"id": 1}`
into `{id: int, name: str = "student"}` raises `MissingField` naming
`name` although no absent field lacks a default — `_check_for_missing`
ignores defaults, contradicting the claim that defaulted absent fields
do not cause the failure. -/
theorem c2_counterexample :
    Model.load studentEnv (modelOf studentSchema false false 1 0)
      (.vdict studentData) none = .error (.missingField 0 ["name"], []) ∧
    fieldsMissingFrom studentEnv studentData 0 = [] :=
  ⟨rfl, rfl⟩

/-- C8 counterexample: a failing serializer step leaves its pushed path
entry on the context stack — the stack is not restored on the failure
path (`_entering` has no `try/finally`, so the `pop()` is skipped). -/
theorem c8_counterexample :
    loadingRun xEnv ".[x]" failingSr (.vint 1) []
      = .error (.valueError, [".[x]"]) ∧
    ([".[x]"] : Stack).length = 1 ∧ ([] : Stack).length = 0 :=
  ⟨rfl, rfl, rfl⟩

/-- C8 amended: `run` pushes the step's entry and pops only on normal
completion; when the serializer (or the post-load validation) raises,
the entry — and whatever the serializer pushed below it — remains on
the stack, forming the error path. -/
theorem c8_amended (env : Env) (step : String) (sr : FieldSr) (v : Value)
    (st : Stack) :
    (∀ r st2 r2, sr.load v (st ++ [step]) = .ok (r, st2) →
      validate env r = .ok r2 →
      loadingRun env step sr v st = .ok (r2, st2.dropLast)) ∧
    (∀ e st2, sr.load v (st ++ [step]) = .error (e, st2) →
      loadingRun env step sr v st = .error (e, st2)) ∧
    (∀ r st2 e, sr.load v (st ++ [step]) = .ok (r, st2) →
      validate env r = .error e →
      loadingRun env step sr v st = .error (e, st2)) ∧
    (∀ r st2, sr.dump v (st ++ [step]) = .ok (r, st2) →
      dumpingRun step sr v st = .ok (r, st2.dropLast)) ∧
    (∀ e st2, sr.dump v (st ++ [step]) = .error (e, st2) →
      dumpingRun step sr v st = .error (e, st2)) := by
  refine ⟨?_, ?_, ?_, ?_, ?_⟩
  · intro r st2 r2 hl hv
    unfold loadingRun
    dsimp only
    rw [hl]
    dsimp only
    rw [hv]
  · intro e st2 hl
    unfold loadingRun
    dsimp only
    rw [hl]
  · intro r st2 e hl hv
    unfold loadingRun
    dsimp only
    rw [hl]
    dsimp only
    rw [hv]
  · intro r st2 hd
    unfold dumpingRun
    dsimp only
    rw [hd]
  · intro e st2 hd
    unfold dumpingRun
    dsimp only
    rw [hd]

/-- C8 witness: the failure clause of the amended statement at a
concrete failing serializer. -/
theorem c8_witness :
    loadingRun xEnv "s" failingSr .vnone [] = .error (.valueError, ["s"]) :=
  (c8_amended xEnv "s" failingSr .vnone []).2.1 .valueError ["s"] rfl

theorem gpLookup_cls : ∀ (gp : Params) (c : Nat), gpLookup gp (.cls c) = none
  | .nil, _ => rfl
  | .cons k d r, c => by
      cases k with
      | idx n => simpa [gpLookup] using gpLookup_cls r c
      | var v => simpa [gpLookup] using gpLookup_cls r c

/-- `_describe_generic` on a bare class returns a descriptor whose
`_cls` is that class and whose `is_optional` is false. -/
theorem describeGeneric_cls (tEnv : TEnv) (fuel : Nat) (c : Nat)
    (gp : Params) (d : TypeDescriptor)
    (hd : describeGeneric tEnv fuel (.cls c) gp = some d) :
    d.clsv = .cls c ∧ d.is_optional = false := by
  cases fuel with
  | zero => simp [describeGeneric] at hd
  | succ f =>
      have he : describeGeneric tEnv (f + 1) (.cls c) gp =
          (if (¬ (tEnv.classes c).origBases.isEmpty &&
              (tEnv.classes c).isDataclass) = true then
            match describeBases tEnv f (tEnv.classes c).origBases gp with
            | none => none
            | some ps => some (.mk (.cls c) (chainMerge ps) false true)
          else
            some (.mk (.cls c) (defaultGenericParams tEnv c) false
              (tEnv.classes c).isDataclass)) := rfl
      rw [he] at hd
      split at hd
      · cases hbs : describeBases tEnv f (tEnv.classes c).origBases gp with
        | none => rw [hbs] at hd; cases hd
        | some ps =>
            rw [hbs] at hd
            cases hd
            exact ⟨rfl, rfl⟩
      · cases hd
        exact ⟨rfl, rfl⟩

/-- C9 counterexample: `describe(Optional[int])` marks the `int`
descriptor optional, and its `cls` is `int` itself, so re-describing
`d.cls` drops the optional flag: `describe(d.cls) ≠ d`. -/
theorem c9_counterexample :
    describe tEnvPlain 5 (.union [.cls 0, .noneT]) .nil
      = some (.mk (.cls 0) .nil true false) ∧
    describe tEnvPlain 5
        (clsValType (TypeDescriptor.mk (.cls 0) .nil true false).clsv) .nil
      = some (.mk (.cls 0) .nil false false) ∧
    TypeDescriptor.mk (.cls 0) .nil true false
      ≠ .mk (.cls 0) .nil false false :=
  ⟨rfl, rfl, by decide⟩

/-- C9 amended: re-description recovers the descriptor exactly for
bare-class types — there `d.cls` is the described type itself, so
`describe(d.cls) == d`; descriptors of `Optional[...]` or of
parameterized generics are not recovered (the optional flag and the
instantiated parameters are not part of `d.cls`). -/
theorem c9_amended (tEnv : TEnv) (fuel : Nat) (c : Nat) (gp : Params)
    (d : TypeDescriptor)
    (hd : describe tEnv fuel (.cls c) gp = some d) :
    describe tEnv fuel (clsValType d.clsv) gp = some d := by
  cases fuel with
  | zero => simp [describe] at hd
  | succ f =>
      rw [describe, gpLookup_cls] at hd
      obtain ⟨hc, _⟩ := describeGeneric_cls tEnv f c gp d hd
      rw [hc]
      show describe tEnv (f + 1) (.cls c) gp = some d
      rw [describe, gpLookup_cls]
      exact hd

/-- C9 witness: the amended statement at a bare plain class. -/
theorem c9_witness :
    describe tEnvPlain 5
      (clsValType (TypeDescriptor.mk (.cls 0) .nil false false).clsv) .nil
      = some (.mk (.cls 0) .nil false false) :=
  c9_amended tEnvPlain 5 0 .nil _ rfl

theorem resolveSrs_error (kinds : List Kind) :
    ∀ (flds : List (String × TypeDescriptor)) (e : Err),
      resolveSrs kinds flds = .error e → ∃ cv, e = .unsupportedType cv
  | [], e, h => by cases h
  | (n, fd) :: rest, e, h => by
      rw [resolveSrs] at h
      cases hf : findSerializer kinds fd with
      | error e2 =>
          rw [hf] at h
          cases hfo : findSerializerOpt kinds fd with
          | some s => rw [findSerializer, hfo] at hf; cases hf
          | none =>
              rw [findSerializer, hfo] at hf
              cases hf
              cases h
              exact ⟨fd.clsv, rfl⟩
      | ok s =>
          rw [hf] at h
          cases hr : resolveSrs kinds rest with
          | error e2 =>
              rw [hr] at h
              cases h
              exact resolveSrs_error kinds rest e hr
          | ok ss => rw [hr] at h; cases h

/-- C5 amended: construction fails with `ModelContainsAny` iff
`allow_any` is false and the scanned type set holds the `Any` marker;
it fails with `ModelContainsUnion` when the set holds the `Union`
marker, *unless* the `Any` rejection fires first — with both markers
present and `allow_any=False`, `ModelContainsAny` takes precedence.
Both failures are construction failures: `seriousInit` embeds
`__init__`, which runs before any load or dump exists. -/
theorem c5_amended (tEnv : TEnv) (fuel : Nat) (kinds : List Kind)
    (allowAny : Bool) (desc : TypeDescriptor) (c : Nat) (ts : List ClsVal)
    (hcls : desc.clsv = .cls c)
    (hdc : (tEnv.classes c).isDataclass = true)
    (hscan : scanTypes tEnv fuel desc = some ts) :
    ((seriousInit tEnv fuel kinds allowAny desc
        = .error (.modelContainsAnyE c)) ↔
      (allowAny = false ∧ ts.contains .any = true)) ∧
    (ts.contains .unionMarker = true →
      (allowAny = true ∨ ts.contains .any = false) →
      seriousInit tEnv fuel kinds allowAny desc
        = .error (.modelContainsUnionE c)) := by
  cases desc with
  | mk cv pp oo dd =>
      simp only [TypeDescriptor.clsv] at hcls
      subst hcls
      unfold seriousInit
      simp only [TypeDescriptor.clsv]
      rw [if_pos hdc, hscan]
      dsimp only
      constructor
      · constructor
        · intro hinit
          cases hA : (¬ allowAny && ts.contains .any) with
          | true =>
              constructor
              · cases allowAny
                · rfl
                · simp at hA
              · cases hc2 : ts.contains .any
                · rw [hc2] at hA; simp at hA
                · rfl
          | false =>
              rw [hA] at hinit
              simp only [Bool.false_eq_true, if_false] at hinit
              cases hU : ts.contains .unionMarker with
              | true =>
                  rw [hU] at hinit
                  simp only [if_true] at hinit
                  cases hinit
              | false =>
                  rw [hU] at hinit
                  simp only [Bool.false_eq_true, if_false] at hinit
                  cases hdf : descFields tEnv fuel (.mk (.cls c) pp oo dd) with
                  | none => rw [hdf] at hinit; cases hinit
                  | some flds =>
                      rw [hdf] at hinit
                      obtain ⟨cv2, hcv2⟩ := resolveSrs_error kinds flds _ hinit
                      cases hcv2
        · rintro ⟨ha, hc2⟩
          subst ha
          rw [show (¬ false && ts.contains .any) = true by simpa using hc2]
          simp
      · intro hU hOr
        have hA : (¬ allowAny && ts.contains .any) = false := by
          rcases hOr with h1 | h1
          · subst h1; simp
          · rw [h1]; simp
        rw [hA]
        simp only [Bool.false_eq_true, if_false]
        rw [hU]
        simp

/-- C5 witness: with `allow_any=True` the same both-marker schema fails
with `ModelContainsUnion`. -/
theorem c5_witness :
    seriousInit tEnvAnyUnion 9 [kindAll] true descAnyUnion
      = .error (.modelContainsUnionE 0) :=
  (c5_amended tEnvAnyUnion 9 [kindAll] true descAnyUnion 0
    [.any, .cls 1, .cls 2, .unionMarker, .cls 0] rfl rfl rfl).2
    (by decide) (.inl rfl)

/-- C5 counterexample: a schema whose type set contains both the `Any`
marker and the `Union` marker, with `allow_any=False`, fails with
`ModelContainsAny` — not with `ModelContainsUnion` as the claim's
unconditional union clause requires. -/
theorem c5_counterexample :
    seriousInit tEnvAnyUnion 9 [kindAll] false descAnyUnion
      = .error (.modelContainsAnyE 0) ∧
    scanTypes tEnvAnyUnion 9 descAnyUnion
      = some [.any, .cls 1, .cls 2, .unionMarker, .cls 0] ∧
    ([ClsVal.any, .cls 1, .cls 2, .unionMarker, .cls 0].contains
      .unionMarker) = true ∧
    Err.modelContainsAnyE 0 ≠ .modelContainsUnionE 0 :=
  ⟨rfl, rfl, by decide, by decide⟩

theorem findOpt_none_of_all (kinds : List Kind) (d : TypeDescriptor)
    (h : ∀ k2 ∈ kinds, k2.fits d = false) :
    findSerializerOpt kinds d = none := by
  unfold findSerializerOpt
  rw [List.find?_eq_none.2]
  · rfl
  · intro k hk
    simp [h k hk]

theorem resolveSrs_first_unfit (kinds : List Kind) :
    ∀ (fpre : List (String × TypeDescriptor)) (n : String)
      (fd : TypeDescriptor) (fpost : List (String × TypeDescriptor)),
      (∀ p ∈ fpre, findSerializerOpt kinds p.2 ≠ none) →
      (∀ k2 ∈ kinds, k2.fits fd = false) →
      resolveSrs kinds (fpre ++ (n, fd) :: fpost)
        = .error (.unsupportedType fd.clsv)
  | [], n, fd, fpost, hpre, hfd => by
      rw [List.nil_append, resolveSrs]
      rw [findSerializer, findOpt_none_of_all kinds fd hfd]
  | (n2, fd2) :: rest, n, fd, fpost, hpre, hfd => by
      rw [List.cons_append, resolveSrs]
      have h2 := hpre (n2, fd2) (by simp)
      cases hfo : findSerializerOpt kinds fd2 with
      | none => exact absurd hfo h2
      | some s =>
          rw [findSerializer, hfo]
          dsimp only
          rw [resolveSrs_first_unfit kinds rest n fd fpost
            (fun p hp => hpre p (by simp [hp])) hfd]

/-- C6: serializer resolution picks the first kind in the
caller-supplied order whose `fits` holds — a later kind is never
selected over an earlier fitting one — and when no candidate fits any
of a field's descriptors, model construction (`seriousInit`, embedding
`__init__`) fails with the unsupported-type error naming the offending
descriptor's class, before any load or dump exists. -/
theorem c6_first_fit :
    (∀ (pre post : List Kind) (k : Kind) (d : TypeDescriptor),
      (∀ k2 ∈ pre, k2.fits d = false) → k.fits d = true →
      findSerializer (pre ++ k :: post) d = .ok (k.tag, d)) ∧
    (∀ (kinds : List Kind) (d : TypeDescriptor),
      (∀ k2 ∈ kinds, k2.fits d = false) →
      findSerializer kinds d = .error (.unsupportedType d.clsv)) ∧
    (∀ (tEnv : TEnv) (fuel : Nat) (kinds : List Kind) (allowAny : Bool)
       (desc : TypeDescriptor) (c : Nat) (ts : List ClsVal)
       (fpre fpost : List (String × TypeDescriptor)) (n : String)
       (fd : TypeDescriptor),
      desc.clsv = .cls c → (tEnv.classes c).isDataclass = true →
      scanTypes tEnv fuel desc = some ts →
      (¬ allowAny && ts.contains .any) = false →
      ts.contains .unionMarker = false →
      descFields tEnv fuel desc = some (fpre ++ (n, fd) :: fpost) →
      (∀ p ∈ fpre, findSerializerOpt kinds p.2 ≠ none) →
      (∀ k2 ∈ kinds, k2.fits fd = false) →
      seriousInit tEnv fuel kinds allowAny desc
        = .error (.unsupportedType fd.clsv)) := by
  refine ⟨?_, ?_, ?_⟩
  · intro pre post k d hpre hk
    unfold findSerializer findSerializerOpt
    induction pre with
    | nil =>
        have hf : List.find? (fun x => x.fits d) (k :: post) = some k :=
          List.find?_cons_of_pos post (by simpa using hk)
        rw [List.nil_append, hf]
        rfl
    | cons p pre2 ih =>
        have hf : List.find? (fun x => x.fits d) (p :: (pre2 ++ k :: post))
            = List.find? (fun x => x.fits d) (pre2 ++ k :: post) :=
          List.find?_cons_of_neg _ (by simp [hpre p (by simp)])
        rw [List.cons_append, hf]
        exact ih (fun k2 hk2 => hpre k2 (by simp [hk2]))
  · intro kinds d h
    rw [findSerializer, findOpt_none_of_all kinds d h]
  · intro tEnv fuel kinds allowAny desc c ts fpre fpost n fd hcls hdc hscan
      hA hU hdf hpre hfd
    cases desc with
    | mk cv pp oo dd =>
        simp only [TypeDescriptor.clsv] at hcls
        subst hcls
        unfold seriousInit
        simp only [TypeDescriptor.clsv]
        rw [if_pos hdc, hscan]
        dsimp only
        rw [hA]
        simp only [Bool.false_eq_true, if_false]
        rw [hU]
        simp only [Bool.false_eq_true, if_false]
        rw [hdf]
        exact resolveSrs_first_unfit kinds fpre n fd fpost hpre hfd

/-- C6 witness: a non-fitting kind listed first is skipped for the
first fitting one, and a schema whose only field no kind fits fails at
construction naming that field's class. -/
theorem c6_witness :
    findSerializer [kindNone, kindAll, kindCls1] descB = .ok (1, descB) ∧
    seriousInit tEnvOneField 9 [kindNone] false (.mk (.cls 0) .nil false true)
      = .error (.unsupportedType (.cls 1)) := by
  constructor
  · exact c6_first_fit.1 [kindNone] [kindCls1] kindAll descB
      (by intro k2 hk2; simp at hk2; subst hk2; rfl) rfl
  · exact c6_first_fit.2.2 tEnvOneField 9 [kindNone] false
      (.mk (.cls 0) .nil false true) 0 [.cls 1, .cls 0] [] [] "x"
      (.mk (.cls 1) .nil false false) rfl rfl rfl (by decide) (by decide) rfl
      (by intro p hp; simp at hp)
      (by intro k2 hk2; simp at hk2; subst hk2; rfl)

theorem c7_child_loop :
    ∀ rf : Nat,
      seriousInitRec tEnvAB 9 rf descB (some [descA])
        = .error .recursionError := by
  intro rf
  induction rf with
  | zero => rw [seriousInitRec]
  | succ n ih =>
      rw [seriousInitRec]
      have hdf : descFields tEnvAB 9 descB
          = some [("next", .mk (.cls 1) .nil true true)] := rfl
      rw [hdf]
      dsimp only
      rw [resolveFields.eq_def]
      simp only [List.map_cons, List.map_nil]
      rw [resolveFieldSr.eq_def]
      have h1 : ((TypeDescriptor.mk (.cls 1) .nil true true).withOptional false)
          = descB := rfl
      simp only [TypeDescriptor.is_optional, if_true, h1]
      simp only [TypeDescriptor.is_dc, descB, if_true]
      rw [childModel.eq_def]
      simp only [show TypeDescriptor.mk (ClsVal.cls 1) Params.nil false true
        = descB from rfl]
      rw [if_neg (by decide), ih]

theorem childModel_B (n : Nat) :
    childModel tEnvAB 9 n descB [descA] = .error .recursionError := by
  have h : childModel tEnvAB 9 n descB [descA]
      = if descB ∈ [descA] then Except.ok [descA]
        else
          match seriousInitRec tEnvAB 9 n descB (some [descA]) with
          | Except.error e => Except.error e
          | Except.ok reg1 => Except.ok (reg1 ++ [descB]) := by
    rw [childModel.eq_def]
  rw [h, if_neg (by decide), c7_child_loop n]

/-- C7: building the root model for `A {b: B}` where `B {next:
Optional[B]}` never terminates, however deep the construction is
allowed to recurse: `child_model` registers a child only *after* its
construction returns (`core.py` lines 166–174), so the in-progress `B`
is never found in the registry and a fresh `B` model is started at
every level (Python raises `RecursionError`).  Only the root
self-registers before resolving fields (line 103). -/
theorem c7_construction_diverges :
    ∀ rfuel : Nat, buildRoot tEnvAB 9 rfuel descA = .error .recursionError := by
  intro rfuel
  cases rfuel with
  | zero => rw [buildRoot, seriousInitRec]
  | succ n =>
      rw [buildRoot, seriousInitRec]
      have hdf : descFields tEnvAB 9 descA = some [("b", descB)] := rfl
      rw [hdf]
      dsimp only
      rw [resolveFields.eq_def]
      simp only [List.map_cons, List.map_nil]
      rw [resolveFieldSr.eq_def]
      simp only [show (if descB.is_optional = true then descB.withOptional false
        else descB) = descB from rfl,
        show descB.is_dc = true from rfl, if_true]
      rw [childModel_B n]

theorem validate_error (env : Env) (v : Value) (e : Err)
    (h : validate env v = .error e) : e = .validationErr := by
  unfold validate at h
  cases v with
  | vnone => cases h
  | vint n => cases h
  | vstr s => cases h
  | vbool b => cases h
  | vlist xs => cases h
  | vdict es => cases h
  | vrecord c fs =>
      dsimp only at h
      cases hvc : env.validator c with
      | none => rw [hvc] at h; cases h
      | some p =>
          rw [hvc] at h
          dsimp only at h
          split at h
          · cases h
          · cases h; rfl

theorem loadingRun_clean (env : Env) (step : String) (sr : FieldSr)
    (v : Value) (st : Stack) (e : Err) (st2 : Stack)
    (hc : SrClean sr)
    (h : loadingRun env step sr v st = .error (e, st2)) :
    e.isLoadError = false ∧ e.isDumpError = false := by
  unfold loadingRun at h
  dsimp only at h
  cases hl : sr.load v (st ++ [step]) with
  | error es =>
      rw [hl] at h
      cases h
      exact hc.1 v (st ++ [step]) e st2 hl
  | ok rs =>
      obtain ⟨r, s2⟩ := rs
      rw [hl] at h
      dsimp only at h
      cases hv : validate env r with
      | error e2 =>
          rw [hv] at h
          cases h
          rw [validate_error env r e hv]
          exact ⟨rfl, rfl⟩
      | ok r2 => rw [hv] at h; cases h

theorem dumpingRun_clean (step : String) (sr : FieldSr)
    (v : Value) (st : Stack) (e : Err) (st2 : Stack)
    (hc : SrClean sr)
    (h : dumpingRun step sr v st = .error (e, st2)) :
    e.isLoadError = false ∧ e.isDumpError = false := by
  unfold dumpingRun at h
  dsimp only at h
  cases hl : sr.dump v (st ++ [step]) with
  | error es =>
      rw [hl] at h
      cases h
      exact hc.2 v (st ++ [step]) e st2 hl
  | ok rs =>
      obtain ⟨r, s2⟩ := rs
      rw [hl] at h
      cases h

theorem loadKwargs_clean (env : Env) :
    ∀ (srs : List (String × FieldSr)) (d : VEntries) (st : Stack)
      (e : Err) (st2 : Stack),
      (∀ p ∈ srs, SrClean p.2) →
      loadKwargs env srs d st = .error (e, st2) →
      e.isLoadError = false ∧ e.isDumpError = false
  | [], d, st, e, st2, hc, h => by cases h
  | (n, sr) :: rest, d, st, e, st2, hc, h => by
      rw [loadKwargs] at h
      cases hl : d.lookup n with
      | none =>
          rw [hl] at h
          exact loadKwargs_clean env rest d st e st2
            (fun p hp => hc p (by simp [hp])) h
      | some v =>
          rw [hl] at h
          dsimp only at h
          cases hr : loadingRun env (dotEntry n) sr v st with
          | error es =>
              obtain ⟨e0, s0⟩ := es
              rw [hr] at h
              cases h
              exact loadingRun_clean env (dotEntry n) sr v st e st2
                (hc (n, sr) (by simp)) hr
          | ok rs =>
              obtain ⟨r, s1⟩ := rs
              rw [hr] at h
              dsimp only at h
              cases hk : loadKwargs env rest d s1 with
              | error es =>
                  rw [hk] at h
                  cases h
                  exact loadKwargs_clean env rest d s1 e st2
                    (fun p hp => hc p (by simp [hp])) hk
              | ok ks => rw [hk] at h; cases h

theorem loadBody_clean (env : Env) (m : Model) (d : VEntries) (st : Stack)
    (e : Err) (st2 : Stack)
    (hc : ModelClean m)
    (h : loadBody env m d st = .error (e, st2)) :
    e.isLoadError = false ∧ e.isDumpError = false := by
  unfold loadBody at h
  cases hk : loadKwargs env m.fieldSerializers d st with
  | error es =>
      rw [hk] at h
      cases h
      exact loadKwargs_clean env m.fieldSerializers d st e st2 hc hk
  | ok ks =>
      obtain ⟨kw, s1⟩ := ks
      rw [hk] at h
      dsimp only at h
      cases hcon : construct env m.cls kw with
      | error e2 =>
          rw [hcon] at h
          cases h
          unfold construct at hcon
          cases hm : (env.dcFields m.cls).mapM (fun f =>
              match kw.lookup f.name with
              | some v => some (f.name, v)
              | none => f.default.map (fun dv => (f.name, dv))) with
          | some fs => rw [hm] at hcon; cases hcon
          | none =>
              rw [hm] at hcon
              cases hcon
              exact ⟨rfl, rfl⟩
      | ok result =>
          rw [hcon] at h
          dsimp only at h
          cases hv : validate env result with
          | error e2 =>
              rw [hv] at h
              cases h
              rw [validate_error env result e hv]
              exact ⟨rfl, rfl⟩
          | ok r2 => rw [hv] at h; cases h

theorem checkForMissing_error (env : Env) (c : Nat) (d : VEntries) (e : Err)
    (h : checkForMissing env c d = .error e) :
    ∃ ns, e = .missingField c ns := by
  unfold checkForMissing at h
  dsimp only at h
  split at h
  · cases h
  · cases h
    exact ⟨_, rfl⟩

theorem checkForUnexpected_error (env : Env) (c : Nat) (d : VEntries) (e : Err)
    (h : checkForUnexpected env c d = .error e) :
    ∃ ns, e = .unexpectedItem c ns := by
  unfold checkForUnexpected at h
  dsimp only at h
  split at h
  · cases h
  · cases h
    exact ⟨_, rfl⟩

theorem loadPrepare_error (env : Env) (m : Model) (h : Heap) (r : Nat)
    (e : Err) (h1 : Heap)
    (hp : loadPrepare env m h r = (.error e, h1)) :
    (∃ ns, e = .missingField m.cls ns) ∨ (∃ ns, e = .unexpectedItem m.cls ns) := by
  unfold loadPrepare at hp
  cases ham : m.allowMissing with
  | true =>
      rw [ham] at hp
      rw [if_pos rfl] at hp
      cases hau : m.allowUnexpected with
      | true =>
          rw [hau] at hp
          simp only [Bool.not_true, Bool.true_eq] at hp
          rw [if_neg (by simp)] at hp
          cases hp
      | false =>
          rw [hau] at hp
          rw [if_pos (by simp)] at hp
          split at hp
          · cases hp
            exact .inr (checkForUnexpected_error env m.cls _ e (by assumption))
          · cases hp
  | false =>
      rw [ham] at hp
      rw [if_neg (by simp)] at hp
      cases hcm : checkForMissing env m.cls (heapGet (h ++ [heapGet h r]) h.length) with
      | error e2 =>
          rw [hcm] at hp
          cases hp
          exact .inl (checkForMissing_error env m.cls _ e hcm)
      | ok u =>
          rw [hcm] at hp
          dsimp only at hp
          cases hau : m.allowUnexpected with
          | true =>
              rw [hau] at hp
              rw [if_neg (by simp)] at hp
              cases hp
          | false =>
              rw [hau] at hp
              rw [if_pos (by simp)] at hp
              split at hp
              · cases hp
                exact .inr (checkForUnexpected_error env m.cls _ e (by assumption))
              · cases hp

theorem dumpFields_clean :
    ∀ (srs : List (String × FieldSr)) (fs : VEntries) (st : Stack)
      (e : Err) (st2 : Stack),
      (∀ p ∈ srs, SrClean p.2) →
      dumpFields srs fs st = .error (e, st2) →
      e.isLoadError = false ∧ e.isDumpError = false
  | [], fs, st, e, st2, hc, h => by cases h
  | (n, sr) :: rest, fs, st, e, st2, hc, h => by
      rw [dumpFields] at h
      cases hl : fs.lookup n with
      | none =>
          rw [hl] at h
          cases h
          exact ⟨rfl, rfl⟩
      | some v =>
          rw [hl] at h
          dsimp only at h
          cases hr : dumpingRun (dotEntry n) sr v st with
          | error es =>
              obtain ⟨e0, s0⟩ := es
              rw [hr] at h
              cases h
              exact dumpingRun_clean (dotEntry n) sr v st e st2
                (hc (n, sr) (by simp)) hr
          | ok rs =>
              obtain ⟨r, s1⟩ := rs
              rw [hr] at h
              dsimp only at h
              cases hk : dumpFields rest fs s1 with
              | error es =>
                  rw [hk] at h
                  cases h
                  exact dumpFields_clean rest fs s1 e st2
                    (fun p hp => hc p (by simp [hp])) hk
              | ok ks => rw [hk] at h; cases h

/-- C4 amended: nested (non-root) `load`/`dump` invocations re-raise
unchanged (their errors are never the wrapper kinds, given serializers
that do not fabricate wrappers themselves); the root `load` wraps any
try-block failure except `ValidationError` into `LoadError` carrying
the accumulated path, the original data, and the failure as cause; the
root `dump` wraps *every* try-block failure — a `ValidationError`
included — into `DumpError`.  Pre-check failures of `load` are raised
before the try block and are never wrapped. -/
theorem c4_amended (env : Env) (m : Model) :
    (ModelClean m →
      ∀ (data : Value) (st : Stack) (e : Err) (st2 : Stack),
        Model.load env m data (some st) = .error (e, st2) →
        e.isLoadError = false ∧ e.isDumpError = false) ∧
    (∀ (es : VEntries) (mutRef : Nat) (h1 : Heap) (e : Err) (st1 : Stack),
      loadPrepare env m [es] 0 = (.ok mutRef, h1) →
      loadBody env m (heapGet h1 mutRef) [] = .error (e, st1) →
      e ≠ .validationErr →
      Model.load env m (.vdict es) none
        = .error (.loadError m.cls st1 (.vdict es) e, st1)) ∧
    (∀ (es : VEntries) (mutRef : Nat) (h1 : Heap) (st1 : Stack),
      loadPrepare env m [es] 0 = (.ok mutRef, h1) →
      loadBody env m (heapGet h1 mutRef) [] = .error (.validationErr, st1) →
      Model.load env m (.vdict es) none = .error (.validationErr, st1)) ∧
    (ModelClean m →
      ∀ (o : Value) (st : Stack) (e : Err) (st2 : Stack),
        Model.dump env m o (some st) = .error (e, st2) →
        e.isLoadError = false ∧ e.isDumpError = false) ∧
    (∀ (fs : VEntries) (e : Err) (st1 : Stack),
      dumpFields m.fieldSerializers fs [] = .error (e, st1) →
      Model.dump env m (.vrecord m.cls fs) none
        = .error (.dumpError (.vrecord m.cls fs) st1 e, st1)) := by
  refine ⟨?_, ?_, ?_, ?_, ?_⟩
  · intro hc data st e st2 h
    cases data with
    | vdict es =>
        unfold Model.load at h
        unfold Model.loadHeap at h
        dsimp only at h
        rcases hp : loadPrepare env m [es] 0 with ⟨res, h1⟩
        rw [hp] at h
        cases res with
        | error e0 =>
            dsimp only at h
            rcases loadPrepare_error env m [es] 0 e0 h1 hp with ⟨ns, hn⟩ | ⟨ns, hn⟩ <;>
              subst hn <;> cases h <;> exact ⟨rfl, rfl⟩
        | ok mutRef =>
            dsimp only at h
            cases hb : loadBody env m (heapGet h1 mutRef) ((some st).getD []) with
            | error es2 =>
                obtain ⟨e0, s0⟩ := es2
                rw [hb] at h
                dsimp only at h
                cases h
                exact loadBody_clean env m (heapGet h1 mutRef) st e st2 hc hb
            | ok rr => rw [hb] at h; cases h
    | vnone => cases h; exact ⟨rfl, rfl⟩
    | vint n => cases h; exact ⟨rfl, rfl⟩
    | vstr s => cases h; exact ⟨rfl, rfl⟩
    | vbool b => cases h; exact ⟨rfl, rfl⟩
    | vlist xs => cases h; exact ⟨rfl, rfl⟩
    | vrecord c fs => cases h; exact ⟨rfl, rfl⟩
  · intro es mutRef h1 e st1 hp hb hne
    have hdata : heapGet h1 0 = es := by
      have := loadPrepare_preserves env m [es] 0 (by simp)
      rw [hp] at this
      simpa [heapGet] using this
    unfold Model.load Model.loadHeap
    dsimp only
    rw [hp]
    simp only [Option.getD_none, Option.isNone_none]
    rw [hb]
    simp only [if_true]
    rw [hdata]
  · intro es mutRef h1 st1 hp hb
    unfold Model.load Model.loadHeap
    dsimp only
    rw [hp]
    simp only [Option.getD_none, Option.isNone_none]
    rw [hb]
    simp only [if_true]
  · intro hc o st e st2 h
    cases o with
    | vrecord c fs =>
        have hD : Model.dump env m (.vrecord c fs) (some st)
            = (if c = m.cls then
                 match dumpFields m.fieldSerializers fs st with
                 | Except.ok r => Except.ok r
                 | Except.error (e2, st1) => Except.error (e2, st1)
               else Except.error (.typeMismatch m.cls, st)) := rfl
        rw [hD] at h
        by_cases hcc : c = m.cls
        · rw [if_pos hcc] at h
          cases hd : dumpFields m.fieldSerializers fs st with
          | error es2 =>
              obtain ⟨e0, s0⟩ := es2
              rw [hd] at h
              dsimp only at h
              cases h
              exact dumpFields_clean m.fieldSerializers fs st e st2 hc hd
          | ok rr => rw [hd] at h; cases h
        · rw [if_neg hcc] at h
          cases h
          exact ⟨rfl, rfl⟩
    | vnone => cases h; exact ⟨rfl, rfl⟩
    | vint n => cases h; exact ⟨rfl, rfl⟩
    | vstr s => cases h; exact ⟨rfl, rfl⟩
    | vbool b => cases h; exact ⟨rfl, rfl⟩
    | vlist xs => cases h; exact ⟨rfl, rfl⟩
    | vdict es => cases h; exact ⟨rfl, rfl⟩
  · intro fs e st1 hd
    have hD : Model.dump env m (.vrecord m.cls fs) none
        = (if m.cls = m.cls then
             match dumpFields m.fieldSerializers fs [] with
             | Except.ok r => Except.ok r
             | Except.error (e2, st1) =>
                 Except.error (.dumpError (.vrecord m.cls fs) st1 e2, st1)
           else Except.error (.typeMismatch m.cls, [])) := rfl
    rw [hD, if_pos rfl, hd]



/-- C4 counterexample: a root `dump` whose field serializer raises
`ValidationError` returns it *wrapped* inside `DumpError` — `dump`'s
except clause has no `ValidationError` exemption. -/
theorem c4_counterexample :
    Model.dump xEnv mValidationField xRecord none
      = .error (.dumpError xRecord [".[x]"] .validationErr, [".[x]"]) ∧
    (Err.dumpError xRecord [".[x]"] .validationErr).isDumpError = true :=
  ⟨rfl, rfl⟩

/-- C4 witness: the root-wrap clause of the amended statement at a
concrete failing serializer, cause preserved. -/
theorem c4_witness :
    Model.load xEnv mFailingField (.vdict xData) none
      = .error (.loadError 0 [".[x]"] (.vdict xData) .valueError, [".[x]"]) :=
  (c4_amended xEnv mFailingField).2.1 xData 1 [xData, xData] .valueError
    [".[x]"] rfl rfl (by decide)


theorem load_root_error_shape (env : Env) (m : Model) (es : VEntries)
    (e : Err) (st2 : Stack)
    (h : Model.load env m (.vdict es) none = .error (e, st2)) :
    (∃ e0, (loadPrepare env m [es] 0).1 = .error e0 ∧ e = e0 ∧ st2 = []) ∨
    e = .validationErr ∨ e.isLoadError = true := by
  unfold Model.load Model.loadHeap at h
  dsimp only at h
  rcases hp : loadPrepare env m [es] 0 with ⟨res, h1⟩
  rw [hp] at h
  cases res with
  | error e0 =>
      dsimp only at h
      simp only [Except.error.injEq, Prod.mk.injEq] at h
      obtain ⟨he, hst⟩ := h
      subst he
      subst hst
      exact .inl ⟨e0, rfl, rfl, rfl⟩
  | ok mutRef =>
      dsimp only at h
      cases hb : loadBody env m (heapGet h1 mutRef) [] with
      | ok rr =>
          rw [show (none : Option Stack).getD [] = [] from rfl, hb] at h
          cases h
      | error es2 =>
          obtain ⟨e0, st1⟩ := es2
          rw [show (none : Option Stack).getD [] = [] from rfl, hb] at h
          simp only [Option.isNone_none, if_true] at h
          cases e0 <;> cases h <;>
            first
            | exact .inr (.inl rfl)
            | exact .inr (.inr rfl)

theorem foldl_heapSet_pair :
    ∀ (fs : List FieldDef) (es0 d : VEntries),
      List.foldl (fun acc f => heapSet acc 1 f.name .vnone) [es0, d] fs
        = [es0, List.foldl (fun dd f => dd.set f.name .vnone) d fs]
  | [], es0, d => rfl
  | f :: r, es0, d => by
      rw [List.foldl_cons, List.foldl_cons]
      rw [show heapSet [es0, d] 1 f.name .vnone = [es0, d.set f.name .vnone]
        from rfl]
      exact foldl_heapSet_pair r es0 (d.set f.name .vnone)

/-- C2 amended: with `allow_missing=False` the load fails with
`MissingField` exactly when some declared field — default or not — is
absent, and the error names every absent declared field; with
`allow_missing=True` a `MissingField` is never raised and `mut_data`
gets `None` appended under exactly the absent no-default fields (so an
absent `Optional` field loads as `None`, as the final conjunct shows),
while absent defaulted fields are left out for the constructor's
default. -/
theorem c2_amended (env : Env) (m : Model) (es : VEntries) :
    (m.allowMissing = false →
      ∀ (names : List String) (st : Stack),
        (Model.load env m (.vdict es) none
            = .error (.missingField m.cls names, st) ↔
          (names = missingNames env m.cls es ∧ names ≠ [] ∧ st = []))) ∧
    (m.allowMissing = true →
      ((loadPrepare env m [es] 0).2 = [es, synthesized env m.cls es] ∧
        ∀ (names : List String) (st : Stack),
          Model.load env m (.vdict es) none
            ≠ .error (.missingField m.cls names, st))) ∧
    Model.load optEnv (modelOf optSchema true false 1 0) (.vdict .nil) none
      = .ok (.vrecord 0 (.cons "x" .vnone .nil), []) := by
  obtain ⟨mcls, mam, mau, msrs⟩ := m
  refine ⟨?_, ?_, rfl⟩
  · intro ham names st
    dsimp only at ham
    subst ham
    have hP : loadPrepare env ⟨mcls, false, mau, msrs⟩ [es] 0
        = (match checkForMissing env mcls es with
           | Except.error e => (Except.error e, ([es, es] : Heap))
           | Except.ok _ =>
               if ¬ mau = true then
                 match checkForUnexpected env mcls es with
                 | Except.error e => (Except.error e, ([es, es] : Heap))
                 | Except.ok _ => (Except.ok 1, ([es, es] : Heap))
               else (Except.ok 1, ([es, es] : Heap))) := rfl
    have hck : checkForMissing env mcls es
        = (if ((env.dcFields mcls).filter
              (fun f => (es.lookup f.name).isNone)).isEmpty = true
            then Except.ok ()
            else Except.error
              (.missingField mcls (missingNames env mcls es))) := rfl
    by_cases hmt : ((env.dcFields mcls).filter
        (fun f => (es.lookup f.name).isNone)).isEmpty = true
    · have hmn : missingNames env mcls es = [] := by
        unfold missingNames
        rw [List.isEmpty_iff] at hmt
        rw [hmt]
        rfl
      constructor
      · intro h
        rcases load_root_error_shape env _ es _ st h with
          ⟨e0, hpe, hee, hst⟩ | hv | hl
        · rw [hP, hck, if_pos hmt] at hpe
          dsimp only at hpe
          cases hau2 : mau with
          | true =>
              rw [hau2, if_neg (by simp)] at hpe
              cases hpe
          | false =>
              rw [hau2, if_pos (by simp)] at hpe
              cases hcu : checkForUnexpected env mcls es with
              | error e2 =>
                  rw [hcu] at hpe
                  dsimp only at hpe
                  obtain ⟨ns, hns⟩ := checkForUnexpected_error env mcls es e2 hcu
                  rw [hns] at hpe
                  cases hpe
                  cases hee
              | ok u =>
                  rw [hcu] at hpe
                  cases hpe
        · cases hv
        · cases hl
      · rintro ⟨hn, hne, hst⟩
        rw [hmn] at hn
        exact absurd hn hne
    · have hload : Model.load env ⟨mcls, false, mau, msrs⟩ (.vdict es) none
          = .error (.missingField mcls (missingNames env mcls es), []) := by
        unfold Model.load Model.loadHeap
        dsimp only
        rw [hP, hck, if_neg hmt]
        rfl
      have hne2 : missingNames env mcls es ≠ [] := by
        unfold missingNames
        intro hc
        rw [List.map_eq_nil_iff] at hc
        rw [hc] at hmt
        exact hmt rfl
      constructor
      · intro h
        rw [hload] at h
        simp only [Except.error.injEq, Prod.mk.injEq, Err.missingField.injEq] at h
        obtain ⟨⟨h1a, h1b⟩, h2⟩ := h
        subst h1b
        exact ⟨rfl, hne2, h2.symm⟩
      · rintro ⟨hn, hne, hst⟩
        subst hn
        subst hst
        exact hload
  · intro ham
    dsimp only at ham
    subst ham
    have hP : loadPrepare env ⟨mcls, true, mau, msrs⟩ [es] 0
        = (if ¬ mau = true then
             match checkForUnexpected env mcls
                 (heapGet (List.foldl (fun acc f => heapSet acc 1 f.name .vnone)
                   [es, es] (fieldsMissingFrom env es mcls)) 1) with
             | Except.error e =>
                 (Except.error e,
                  List.foldl (fun acc f => heapSet acc 1 f.name .vnone)
                    [es, es] (fieldsMissingFrom env es mcls))
             | Except.ok _ =>
                 (Except.ok 1,
                  List.foldl (fun acc f => heapSet acc 1 f.name .vnone)
                    [es, es] (fieldsMissingFrom env es mcls))
           else
             (Except.ok 1,
              List.foldl (fun acc f => heapSet acc 1 f.name .vnone)
                [es, es] (fieldsMissingFrom env es mcls))) := rfl
    constructor
    · rw [hP]
      rw [foldl_heapSet_pair]
      cases hau2 : mau with
      | true =>
          rw [if_neg (by simp)]
          rfl
      | false =>
          rw [if_pos (by simp)]
          split <;> rfl
    · intro names st h
      rcases load_root_error_shape env _ es _ st h with
        ⟨e0, hpe, hee, hst⟩ | hv | hl
      · rw [hP] at hpe
        cases hau2 : mau with
        | true =>
            rw [hau2, if_neg (by simp)] at hpe
            cases hpe
        | false =>
            rw [hau2, if_pos (by simp)] at hpe
            cases hcu : checkForUnexpected env mcls
                (heapGet (List.foldl (fun acc f => heapSet acc 1 f.name .vnone)
                  [es, es] (fieldsMissingFrom env es mcls)) 1) with
            | error e2 =>
                rw [hcu] at hpe
                dsimp only at hpe
                obtain ⟨ns, hns⟩ := checkForUnexpected_error env mcls _ e2 hcu
                rw [hns] at hpe
                cases hpe
                cases hee
            | ok u =>
                rw [hcu] at hpe
                cases hpe
      · cases hv
      · cases hl


/-- C2 witness: the `allow_missing=False` clause of the amended
statement at the Student schema, naming the absent defaulted field. -/
theorem c2_witness :
    Model.load studentEnv (modelOf studentSchema false false 1 0)
      (.vdict studentData) none = .error (.missingField 0 ["name"], []) :=
  ((c2_amended studentEnv (modelOf studentSchema false false 1 0)
      studentData).1 rfl ["name"] []).mpr ⟨rfl, by decide, rfl⟩

/-! ### Round-trip (C1) auxiliary lemmas -/

theorem validFields_keys (S : Schema) :
    ∀ (fts : List (String × FType)) (fs : VEntries),
      validFields S fts fs = true → fs.keys = fts.map (·.1)
  | [], .nil, _ => rfl
  | [], .cons _ _ _, h => by simp [validFields] at h
  | _ :: _, .nil, h => by simp [validFields] at h
  | (n, ft) :: rest, .cons k v r, h => by
      simp only [validFields, Bool.and_eq_true, beq_iff_eq] at h
      obtain ⟨⟨hk, _⟩, hr⟩ := h
      simp [VEntries.keys, hk, validFields_keys S rest r hr]

theorem validRecord_fields (S : Schema) (c : Nat) (fs : VEntries)
    (h : validRecord S (.vrecord c fs) = true) :
    validFields S (S.ftypes c) fs = true := by
  simp only [validRecord, Bool.and_eq_true] at h
  exact h.1

theorem validRecord_validate (S : Schema) (c : Nat) (fs : VEntries)
    (h : validRecord S (.vrecord c fs) = true) :
    validate S.env (.vrecord c fs) = .ok (.vrecord c fs) := by
  simp only [validRecord, Bool.and_eq_true] at h
  obtain ⟨-, h2⟩ := h
  simp only [validate]
  rcases hp : S.env.validator c with _ | p
  · rfl
  · rw [hp] at h2
    simp only at h2
    simp [h2]

theorem valid_validate (S : Schema) :
    ∀ (ft : FType) (v : Value), isValidInstance S ft v = true →
      validate S.env v = .ok v := by
  intro ft
  induction ft with
  | fint => intro v hv; cases v <;> simp [isValidInstance, Value.isInt] at hv ⊢ <;> rfl
  | fstr => intro v hv; cases v <;> simp [isValidInstance, Value.isStr] at hv ⊢ <;> rfl
  | fbool => intro v hv; cases v <;> simp [isValidInstance, Value.isBool] at hv ⊢ <;> rfl
  | fopt t iht =>
      intro v hv
      simp only [isValidInstance, Bool.or_eq_true] at hv
      rcases hv with hn | hv
      · cases v <;> simp [Value.isNone] at hn <;> rfl
      · exact iht v hv
  | flist t iht =>
      intro v hv
      cases v <;> simp [isValidInstance] at hv ⊢ <;> rfl
  | frec c =>
      intro v hv
      cases v with
      | vrecord c2 fs =>
          simp only [isValidInstance, Bool.and_eq_true] at hv
          exact validRecord_validate S c2 fs hv.2
      | vnone => simp [isValidInstance] at hv
      | vint n => simp [isValidInstance] at hv
      | vstr s => simp [isValidInstance] at hv
      | vbool b => simp [isValidInstance] at hv
      | vlist xs => simp [isValidInstance] at hv
      | vdict es => simp [isValidInstance] at hv

theorem validItems_mem (S : Schema) (t : FType) :
    ∀ (xs : VList), validItems S t xs = true →
      ∀ w ∈ xs.toList, isValidInstance S t w = true
  | .nil, _, w, hw => by simp [VList.toList] at hw
  | .cons v r, h, w, hw => by
      simp only [validItems, Bool.and_eq_true] at h
      rcases List.mem_cons.mp hw with he | hm
      · exact he ▸ h.1
      · exact validItems_mem S t r h.2 w hm

theorem sizeOf_lt_of_mem_toList :
    ∀ (xs : VList) (w : Value), w ∈ xs.toList → sizeOf w < sizeOf xs
  | .cons v r, w, hw => by
      rcases List.mem_cons.mp hw with he | hm
      · subst he; simp; omega
      · have := sizeOf_lt_of_mem_toList r w hm
        simp; omega

theorem sizeOf_lt_of_mem_valuesList :
    ∀ (fs : VEntries) (w : Value), w ∈ fs.valuesList → sizeOf w < sizeOf fs
  | .cons k v r, w, hw => by
      rcases List.mem_cons.mp hw with he | hm
      · subst he; simp; omega
      · have := sizeOf_lt_of_mem_valuesList r w hm
        simp; omega

theorem recDepth_le_of_mem_toList :
    ∀ (xs : VList) (w : Value), w ∈ xs.toList → recDepth w ≤ recDepthLs xs
  | .cons v r, w, hw => by
      rcases List.mem_cons.mp hw with he | hm
      · subst he; simp [recDepthLs]
      · have := recDepth_le_of_mem_toList r w hm
        simp [recDepthLs]; omega

theorem recDepth_le_of_mem_valuesList :
    ∀ (fs : VEntries) (w : Value), w ∈ fs.valuesList → recDepth w ≤ recDepthEs fs
  | .cons k v r, w, hw => by
      rcases List.mem_cons.mp hw with he | hm
      · subst he; simp [recDepthEs]
      · have := recDepth_le_of_mem_valuesList r w hm
        simp [recDepthEs]; omega

theorem lookup_isSome_of_mem_keys :
    ∀ (d : VEntries) (n : String), n ∈ d.keys → (d.lookup n).isSome
  | .cons k v r, n, hn => by
      rcases List.mem_cons.mp hn with he | hm
      · simp [VEntries.lookup, he.symm]
      · by_cases hk : k = n
        · simp [VEntries.lookup, hk]
        · simp only [VEntries.lookup, if_neg hk]
          exact lookup_isSome_of_mem_keys r n hm

theorem loadKwargs_congr (env : Env) :
    ∀ (srs : List (String × FieldSr)) (d₁ d₂ : VEntries) (st : Stack),
      (∀ nm ∈ srs.map (·.1), d₁.lookup nm = d₂.lookup nm) →
      loadKwargs env srs d₁ st = loadKwargs env srs d₂ st
  | [], _, _, _, _ => rfl
  | (name, sr) :: rest, d₁, d₂, st, h => by
      have hh : d₁.lookup name = d₂.lookup name := h name (by simp)
      have ht : ∀ nm ∈ rest.map (·.1), d₁.lookup nm = d₂.lookup nm :=
        fun nm hm => h nm (by simp [hm])
      simp only [loadKwargs, hh]
      rcases d₂.lookup name with _ | v
      · exact loadKwargs_congr env rest d₁ d₂ st ht
      · dsimp only
        rcases loadingRun env (dotEntry name) sr v st with es | ⟨r, st1⟩
        · rfl
        · dsimp only
          rw [loadKwargs_congr env rest d₁ d₂ st1 ht]

theorem optionMapM_congr {α β : Type} :
    ∀ (l : List α) (g₁ g₂ : α → Option β),
      (∀ a ∈ l, g₁ a = g₂ a) → l.mapM g₁ = l.mapM g₂
  | [], _, _, _ => rfl
  | a :: as, g₁, g₂, h => by
      simp only [List.mapM_cons, h a (by simp)]
      rw [optionMapM_congr as g₁ g₂ (fun x hx => h x (by simp [hx]))]

theorem constructMapM :
    ∀ (fds : List FieldDef) (fs : VEntries),
      fs.keys = fds.map (·.name) → (fds.map (·.name)).Nodup →
      fds.mapM (fun f =>
        match (VEntries.toList fs).lookup f.name with
        | some v => some (f.name, v)
        | none => f.default.map (fun dv => (f.name, dv))) =
      some (VEntries.toList fs)
  | [], fs, hk, _ => by
      cases fs with
      | nil => rfl
      | cons k v r => simp [VEntries.keys] at hk
  | f :: rest, fs, hk, hnd => by
      cases fs with
      | nil => simp [VEntries.keys] at hk
      | cons k v r =>
          simp only [VEntries.keys, List.map_cons, List.cons.injEq] at hk
          obtain ⟨hkf, hkr⟩ := hk
          simp only [List.map_cons, List.nodup_cons] at hnd
          obtain ⟨hfn, hndr⟩ := hnd
          have hlook : (VEntries.toList (VEntries.cons k v r)).lookup f.name =
              some v := by
            simp [VEntries.toList, List.lookup, hkf]
          have hcongr : rest.mapM (fun g =>
              match (VEntries.toList (VEntries.cons k v r)).lookup g.name with
              | some w => some (g.name, w)
              | none => g.default.map (fun dv => (g.name, dv))) =
              rest.mapM (fun g =>
              match (VEntries.toList r).lookup g.name with
              | some w => some (g.name, w)
              | none => g.default.map (fun dv => (g.name, dv))) := by
            apply optionMapM_congr
            intro g hg
            have hgk : g.name ≠ k := by
              intro he
              refine hfn ?_
              rw [← hkf, ← he]
              exact List.mem_map_of_mem _ hg
            have : (VEntries.toList (VEntries.cons k v r)).lookup g.name =
                (VEntries.toList r).lookup g.name := by
              simp [VEntries.toList, List.lookup, beq_eq_false_iff_ne.mpr hgk]
            rw [this]
          simp only [List.mapM_cons, hlook, hcongr,
            constructMapM rest r hkr hndr, Option.bind_some]
          simp [VEntries.toList, hkf]

theorem ofList_toList :
    ∀ es : VEntries, VEntries.ofList (VEntries.toList es) = es
  | .nil => rfl
  | .cons k v r => by simp [VEntries.toList, VEntries.ofList, ofList_toList r]

theorem construct_toList (env : Env) (c : Nat) (fs : VEntries)
    (hk : fs.keys = (env.dcFields c).map (·.name))
    (hnd : ((env.dcFields c).map (·.name)).Nodup) :
    construct env c (VEntries.toList fs) = .ok (.vrecord c fs) := by
  simp only [construct, constructMapM (env.dcFields c) fs hk hnd,
    ofList_toList]

theorem fieldsMissingFrom_nil (env : Env) (d : VEntries) (c : Nat)
    (h : ∀ f ∈ env.dcFields c, (d.lookup f.name).isSome) :
    fieldsMissingFrom env d c = [] := by
  simp only [fieldsMissingFrom, List.filter_eq_nil_iff]
  intro f hf
  have := h f hf
  simp only [Bool.and_eq_true, Option.isNone_iff_eq_none]
  intro hcon
  rw [hcon.1] at this
  simp at this

theorem checkForMissing_ok (env : Env) (c : Nat) (d : VEntries)
    (h : ∀ f ∈ env.dcFields c, (d.lookup f.name).isSome) :
    checkForMissing env c d = .ok () := by
  have hnil : (env.dcFields c).filter (fun f => (d.lookup f.name).isNone) = [] := by
    simp only [List.filter_eq_nil_iff]
    intro f hf
    have := h f hf
    simp only [Option.isNone_iff_eq_none]
    intro hcon
    rw [hcon] at this
    simp at this
  simp [checkForMissing, hnil]

theorem checkForUnexpected_ok (env : Env) (c : Nat) (d : VEntries)
    (h : ∀ k ∈ d.keys, k ∈ (env.dcFields c).map (·.name)) :
    checkForUnexpected env c d = .ok () := by
  have hnil : d.keys.filter
      (fun k => ¬ ((env.dcFields c).map (·.name)).contains k) = [] := by
    rw [List.filter_eq_nil_iff]
    intro k hk
    have hme := h k hk
    simp only [List.mem_map] at hme
    obtain ⟨f, hf, he⟩ := hme
    simp
    exact ⟨f, hf, he⟩
  simp only [checkForUnexpected]
  rw [hnil]
  rfl

theorem loadPrepare_complete (env : Env) (m : Model) (d : VEntries)
    (hk : d.keys = (env.dcFields m.cls).map (·.name)) :
    loadPrepare env m [d] 0 = (.ok 1, [d, d]) := by
  have hsome : ∀ f ∈ env.dcFields m.cls, (d.lookup f.name).isSome := by
    intro f hf
    exact lookup_isSome_of_mem_keys d f.name
      (by rw [hk]; exact List.mem_map_of_mem _ hf)
  have hsub : ∀ k ∈ d.keys, k ∈ (env.dcFields m.cls).map (·.name) := by
    intro k hkk; rw [← hk]; exact hkk
  have hA : ([d] ++ [heapGet [d] 0] : Heap) = [d, d] := rfl
  have hB : ([d] : Heap).length = 1 := rfl
  have hC : heapGet [d, d] 1 = d := rfl
  simp only [loadPrepare, hA, hB, hC]
  rcases ham : m.allowMissing with _ | _
  · simp only [Bool.false_eq_true, if_false,
      checkForMissing_ok env m.cls d hsome]
    rcases hau : m.allowUnexpected with _ | _ <;>
      simp [checkForUnexpected_ok env m.cls d hsub]
  · simp only [if_true, fieldsMissingFrom_nil env d m.cls hsome,
      List.foldl_nil, hC]
    rcases hau : m.allowUnexpected with _ | _ <;>
      simp [checkForUnexpected_ok env m.cls d hsub]

theorem mkSrs_keys (S : Schema) (am au : Bool) (fuel : Nat)
    (fts : List (String × FType)) :
    (mkSrs S am au fuel fts).map (·.1) = fts.map (·.1) := by
  simp [mkSrs]

theorem dumpFields_congr :
    ∀ (srs : List (String × FieldSr)) (fs₁ fs₂ : VEntries) (st : Stack),
      (∀ nm ∈ srs.map (·.1), fs₁.lookup nm = fs₂.lookup nm) →
      dumpFields srs fs₁ st = dumpFields srs fs₂ st
  | [], _, _, _, _ => rfl
  | (name, sr) :: rest, fs₁, fs₂, st, h => by
      have hh : fs₁.lookup name = fs₂.lookup name := h name (by simp)
      have ht : ∀ nm ∈ rest.map (·.1), fs₁.lookup nm = fs₂.lookup nm :=
        fun nm hm => h nm (by simp [hm])
      simp only [dumpFields, hh]
      rcases fs₂.lookup name with _ | v
      · rfl
      · dsimp only
        rcases dumpingRun (dotEntry name) sr v st with es | ⟨r, st1⟩
        · rfl
        · dsimp only
          rw [dumpFields_congr rest fs₁ fs₂ st1 ht]

theorem rt_items (S : Schema) (am au : Bool) (fuel : Nat) (t : FType) :
    ∀ (xs : VList),
      (∀ w ∈ xs.toList,
        RTF S am au fuel t w ∧ validate S.env w = .ok w) →
      ∀ (i : Nat) (st : Stack), ∃ ds : VList,
        collDumpItems (mkFieldSrT S.env (recSrF S am au fuel) t) xs i st =
          .ok (ds, st) ∧
        collLoadItems S.env (mkFieldSrT S.env (recSrF S am au fuel) t) ds i st =
          .ok (xs, st)
  | .nil, _, i, st => ⟨.nil, rfl, rfl⟩
  | .cons v r, H, i, st => by
      obtain ⟨hrtf, hval⟩ := H v (by simp [VList.toList])
      obtain ⟨d, hdump, hload, -⟩ := hrtf (st ++ [idxEntry i])
      obtain ⟨ds, hds, hls⟩ := rt_items S am au fuel t r
        (fun w hw => H w (by simp [VList.toList, hw])) (i + 1) st
      refine ⟨.cons d ds, ?_, ?_⟩
      · simp only [collDumpItems, dumpingRun, hdump]
        simp only [List.dropLast_concat, hds]
      · simp only [collLoadItems, loadingRun, hload, hval]
        simp only [List.dropLast_concat, hls]

theorem rt_fields_chain (S : Schema) (am au : Bool) (fuel : Nat) :
    ∀ (fts : List (String × FType)) (fs : VEntries),
      (fts.map (·.1)).Nodup →
      validFields S fts fs = true →
      (∀ (ft : FType) (w : Value), w ∈ fs.valuesList →
        isValidInstance S ft w = true → RTF S am au fuel ft w) →
      ∀ st : Stack, ∃ d : VEntries,
        dumpFields (mkSrs S am au fuel fts) fs st = .ok (d, st) ∧
        d.keys = fts.map (·.1) ∧
        loadKwargs S.env (mkSrs S am au fuel fts) d st =
          .ok (VEntries.toList fs, st)
  | [], .nil, _, _, _, st => ⟨.nil, rfl, rfl, rfl⟩
  | [], .cons _ _ _, _, hvf, _, st => by simp [validFields] at hvf
  | _ :: _, .nil, _, hvf, _, st => by simp [validFields] at hvf
  | (n, ft) :: rest, .cons k w r, hnd, hvf, H, st => by
      simp only [validFields, Bool.and_eq_true, beq_iff_eq] at hvf
      obtain ⟨⟨hk, hvw⟩, hvr⟩ := hvf
      subst hk
      simp only [List.map_cons, List.nodup_cons] at hnd
      obtain ⟨hnn, hndr⟩ := hnd
      have hrtf := H ft w (by simp [VEntries.valuesList]) hvw
      obtain ⟨d₀, hdump, hload, -⟩ := hrtf (st ++ [dotEntry n])
      have hvalw : validate S.env w = .ok w := valid_validate S ft w hvw
      obtain ⟨dR, hdR, hkeys, hkw⟩ :=
        rt_fields_chain S am au fuel rest r hndr hvr
          (fun ft' w' hm hv' => H ft' w' (by simp [VEntries.valuesList, hm]) hv') st
      have hlookups : ∀ nm ∈ (mkSrs S am au fuel rest).map (·.1),
          (VEntries.cons n w r).lookup nm = r.lookup nm := by
        intro nm hm
        rw [mkSrs_keys] at hm
        have hne : n ≠ nm := fun he => hnn (he ▸ hm)
        simp [VEntries.lookup, hne]
      have hlookups2 : ∀ nm ∈ (mkSrs S am au fuel rest).map (·.1),
          (VEntries.cons n d₀ dR).lookup nm = dR.lookup nm := by
        intro nm hm
        rw [mkSrs_keys] at hm
        have hne : n ≠ nm := fun he => hnn (he ▸ hm)
        simp [VEntries.lookup, hne]
      have hlk1 : (VEntries.cons n w r).lookup n = some w := by
        simp [VEntries.lookup]
      have hlk2 : (VEntries.cons n d₀ dR).lookup n = some d₀ := by
        simp [VEntries.lookup]
      refine ⟨.cons n d₀ dR, ?_, ?_, ?_⟩
      · show dumpFields ((n, mkFieldSrT S.env (recSrF S am au fuel) ft) ::
          mkSrs S am au fuel rest) (.cons n w r) st = _
        simp only [dumpFields, hlk1]
        simp only [dumpingRun, hdump]
        simp only [List.dropLast_concat]
        rw [dumpFields_congr (mkSrs S am au fuel rest)
          (VEntries.cons n w r) r st hlookups, hdR]
      · simp [VEntries.keys, hkeys]
      · show loadKwargs S.env ((n, mkFieldSrT S.env (recSrF S am au fuel) ft) ::
          mkSrs S am au fuel rest) (.cons n d₀ dR) st = _
        simp only [loadKwargs, hlk2]
        simp only [loadingRun, hload]
        simp only [hvalw]
        simp only [List.dropLast_concat]
        rw [loadKwargs_congr S.env (mkSrs S am au fuel rest)
          (VEntries.cons n d₀ dR) dR st hlookups2, hkw]
        rfl

theorem rt_record (S : Schema) (am au : Bool) (fuel : Nat)
    (hwf : SchemaWF S) (c : Nat) (fs : VEntries)
    (hv : validRecord S (.vrecord c fs) = true)
    (H : ∀ ft w, w ∈ fs.valuesList → isValidInstance S ft w = true →
      RTF S am au fuel ft w)
    (ctx : Option Stack) :
    ∃ d : VEntries,
      Model.dump S.env (modelOf S am au fuel c) (.vrecord c fs) ctx =
        .ok (d, ctx.getD []) ∧
      Model.load S.env (modelOf S am au fuel c) (.vdict d) ctx =
        .ok (.vrecord c fs, ctx.getD []) := by
  obtain ⟨hnames, hnodup⟩ := hwf c
  have hflds := validRecord_fields S c fs hv
  obtain ⟨d, hdump, hkeys, hkw⟩ :=
    rt_fields_chain S am au fuel (S.ftypes c) fs hnodup hflds H (ctx.getD [])
  have hsrs : (modelOf S am au fuel c).fieldSerializers =
      mkSrs S am au fuel (S.ftypes c) := rfl
  refine ⟨d, ?_, ?_⟩
  · simp only [Model.dump]
    rw [if_pos (show c = (modelOf S am au fuel c).cls from rfl)]
    rw [hsrs, hdump]
  · have hkeys2 : d.keys =
        (S.env.dcFields (modelOf S am au fuel c).cls).map (·.name) := by
      rw [hkeys]
      exact hnames
    simp only [Model.load, Model.loadHeap]
    rw [loadPrepare_complete S.env (modelOf S am au fuel c) d hkeys2]
    have hget : heapGet [d, d] 1 = d := rfl
    have hc2 : construct S.env ((modelOf S am au fuel c).cls) fs.toList =
        .ok (.vrecord c fs) :=
      construct_toList S.env c fs
        (by rw [validFields_keys S (S.ftypes c) fs hflds]; exact hnames)
        (hnames ▸ hnodup)
    have hbody : loadBody S.env (modelOf S am au fuel c) d (ctx.getD []) =
        .ok (.vrecord c fs, ctx.getD []) := by
      simp only [loadBody]
      rw [hsrs, hkw]
      dsimp only
      rw [hc2]
      dsimp only
      rw [validRecord_validate S c fs hv]
    dsimp only
    rw [hget, hbody]

theorem rt_all (S : Schema) (am au : Bool) (hwf : SchemaWF S) :
    ∀ (n : Nat) (v : Value), sizeOf v ≤ n →
      ∀ (ft : FType) (fuel : Nat),
        isValidInstance S ft v = true → recDepth v ≤ fuel →
        RTF S am au fuel ft v := by
  intro n
  induction n with
  | zero =>
      intro v hv
      exact absurd hv (by cases v <;> simp <;> omega)
  | succ n ih =>
      intro v hv ft
      induction ft with
      | fint =>
          intro fuel hval hdep st
          cases v with
          | vint k => exact ⟨.vint k, rfl, rfl, fun _ => by simp⟩
          | vnone => exact absurd hval (by simp [isValidInstance, Value.isInt])
          | vstr s => exact absurd hval (by simp [isValidInstance, Value.isInt])
          | vbool b => exact absurd hval (by simp [isValidInstance, Value.isInt])
          | vlist xs => exact absurd hval (by simp [isValidInstance, Value.isInt])
          | vdict es => exact absurd hval (by simp [isValidInstance, Value.isInt])
          | vrecord c fs => exact absurd hval (by simp [isValidInstance, Value.isInt])
      | fstr =>
          intro fuel hval hdep st
          cases v with
          | vstr s => exact ⟨.vstr s, rfl, rfl, fun _ => by simp⟩
          | vnone => exact absurd hval (by simp [isValidInstance, Value.isStr])
          | vint k => exact absurd hval (by simp [isValidInstance, Value.isStr])
          | vbool b => exact absurd hval (by simp [isValidInstance, Value.isStr])
          | vlist xs => exact absurd hval (by simp [isValidInstance, Value.isStr])
          | vdict es => exact absurd hval (by simp [isValidInstance, Value.isStr])
          | vrecord c fs => exact absurd hval (by simp [isValidInstance, Value.isStr])
      | fbool =>
          intro fuel hval hdep st
          cases v with
          | vbool b => exact ⟨.vbool b, rfl, rfl, fun _ => by simp⟩
          | vnone => exact absurd hval (by simp [isValidInstance, Value.isBool])
          | vint k => exact absurd hval (by simp [isValidInstance, Value.isBool])
          | vstr s => exact absurd hval (by simp [isValidInstance, Value.isBool])
          | vlist xs => exact absurd hval (by simp [isValidInstance, Value.isBool])
          | vdict es => exact absurd hval (by simp [isValidInstance, Value.isBool])
          | vrecord c fs => exact absurd hval (by simp [isValidInstance, Value.isBool])
      | fopt t iht =>
          intro fuel hval hdep
          by_cases hn : v = .vnone
          · subst hn
            intro st
            exact ⟨.vnone, rfl, rfl, fun h => absurd rfl h⟩
          · have hfalse : v.isNone = false := by
              cases v <;> first | rfl | exact absurd rfl hn
            have hval' : isValidInstance S t v = true := by
              simp only [isValidInstance, hfalse, Bool.false_or] at hval
              exact hval
            have hr := iht fuel hval' hdep
            intro st
            obtain ⟨d, hdump, hload, hne⟩ := hr st
            have hdn : d ≠ .vnone := hne hn
            refine ⟨d, ?_, ?_, fun _ => hdn⟩
            · cases v <;> first
                | exact absurd rfl hn
                | exact hdump
            · cases d <;> first
                | exact absurd rfl hdn
                | exact hload
      | flist t iht =>
          intro fuel hval hdep
          cases v with
          | vlist xs =>
              intro st
              have hitems : ∀ w ∈ xs.toList,
                  RTF S am au fuel t w ∧ validate S.env w = .ok w := by
                intro w hw
                have hvw : isValidInstance S t w = true :=
                  validItems_mem S t xs
                    (by simpa [isValidInstance] using hval) w hw
                have hsz : sizeOf w ≤ n := by
                  have h1 := sizeOf_lt_of_mem_toList xs w hw
                  have h2 : sizeOf xs < sizeOf (Value.vlist xs) := by simp
                  omega
                have hdw : recDepth w ≤ fuel := by
                  have h1 := recDepth_le_of_mem_toList xs w hw
                  have h2 : recDepth (Value.vlist xs) = recDepthLs xs := by
                    simp [recDepth]
                  omega
                exact ⟨ih w hsz t fuel hvw hdw, valid_validate S t w hvw⟩
              obtain ⟨ds, hds, hls⟩ := rt_items S am au fuel t xs hitems 0 st
              refine ⟨.vlist ds, ?_, ?_, fun _ => by simp⟩
              · show Except.map _
                  (collDumpItems (mkFieldSrT S.env (recSrF S am au fuel) t)
                    xs 0 st) = _
                rw [hds]
                rfl
              · show Except.map _
                  (collLoadItems S.env (mkFieldSrT S.env (recSrF S am au fuel) t)
                    ds 0 st) = _
                rw [hls]
                rfl
          | vnone => exact absurd hval (by simp [isValidInstance])
          | vint k => exact absurd hval (by simp [isValidInstance])
          | vstr s => exact absurd hval (by simp [isValidInstance])
          | vbool b => exact absurd hval (by simp [isValidInstance])
          | vdict es => exact absurd hval (by simp [isValidInstance])
          | vrecord c fs => exact absurd hval (by simp [isValidInstance])
      | frec c =>
          intro fuel hval hdep
          cases v with
          | vrecord c2 fs =>
              simp only [isValidInstance, Bool.and_eq_true, beq_iff_eq] at hval
              obtain ⟨hc, hvr⟩ := hval
              subst hc
              have hre : recDepth (Value.vrecord c fs) = 1 + recDepthEs fs := by
                simp [recDepth]
              cases fuel with
              | zero => omega
              | succ f =>
                  have H : ∀ ft w, w ∈ fs.valuesList →
                      isValidInstance S ft w = true → RTF S am au f ft w := by
                    intro ft w hm hvw
                    have hsz : sizeOf w ≤ n := by
                      have h1 := sizeOf_lt_of_mem_valuesList fs w hm
                      have h2 : sizeOf fs < sizeOf (Value.vrecord c fs) := by simp
                      omega
                    have hdw : recDepth w ≤ f := by
                      have h1 := recDepth_le_of_mem_valuesList fs w hm
                      omega
                    exact ih w hsz ft f hvw hdw
                  intro st
                  obtain ⟨d, hdmp, hld⟩ :=
                    rt_record S am au f hwf c fs hvr H (some st)
                  refine ⟨.vdict d, ?_, ?_, fun _ => by simp⟩
                  · show Except.map _
                      (Model.dump S.env (modelOfWith S am au (recSrF S am au f) c)
                        (Value.vrecord c fs) (some st)) = _
                    rw [show modelOfWith S am au (recSrF S am au f) c =
                      modelOf S am au f c from rfl, hdmp]
                    rfl
                  · exact hld
          | vnone => exact absurd hval (by simp [isValidInstance])
          | vint k => exact absurd hval (by simp [isValidInstance])
          | vstr s => exact absurd hval (by simp [isValidInstance])
          | vbool b => exact absurd hval (by simp [isValidInstance])
          | vlist xs => exact absurd hval (by simp [isValidInstance])
          | vdict es => exact absurd hval (by simp [isValidInstance])

/-- C1: the round trip.  For every schema that agrees with its
reflection environment, every record class `c`, and every valid
instance of `c` (the field-type universe carries no unconstrained-any
and no union, so the model always builds), `dump` at the root succeeds
and `load` of its result returns the original instance — under either
policy flag and any fuel covering the instance's dataclass-nesting
depth. -/
theorem c1_roundtrip (S : Schema) (am au : Bool) (fuel c : Nat)
    (fs : VEntries) (hwf : SchemaWF S)
    (hv : isValidInstance S (.frec c) (.vrecord c fs) = true)
    (hd : recDepthEs fs ≤ fuel) :
    ∃ d : VEntries,
      Model.dump S.env (modelOf S am au fuel c) (.vrecord c fs) none =
        .ok (d, []) ∧
      Model.load S.env (modelOf S am au fuel c) (.vdict d) none =
        .ok (.vrecord c fs, []) := by
  have hvr : validRecord S (.vrecord c fs) = true := by
    simp only [isValidInstance, Bool.and_eq_true] at hv
    exact hv.2
  have H : ∀ ft w, w ∈ fs.valuesList → isValidInstance S ft w = true →
      RTF S am au fuel ft w := by
    intro ft w hm hvw
    have hdw : recDepth w ≤ fuel :=
      le_trans (recDepth_le_of_mem_valuesList fs w hm) hd
    exact rt_all S am au hwf (sizeOf w) w le_rfl ft fuel hvw hdw
  exact rt_record S am au fuel hwf c fs hvr H none

/-- Witness for C1: the self-referential `Node` schema round-trips a
two-level instance at the root. -/
theorem c1_witness :
    ∃ d : VEntries,
      Model.dump nodeSchema.env (modelOf nodeSchema false false 1 0) nodeTwo
        none = .ok (d, []) ∧
      Model.load nodeSchema.env (modelOf nodeSchema false false 1 0) (.vdict d)
        none = .ok (nodeTwo, []) :=
  c1_roundtrip nodeSchema false false 1 0
    (.cons "a" (.vint 1) (.cons "b" nodeLeaf .nil))
    (by
      intro c
      refine ⟨rfl, ?_⟩
      show (["a", "b"] : List String).Nodup
      decide)
    (by
      simp [isValidInstance, validRecord, validFields, validItems,
        nodeSchema, nodeEnv, nodeLeaf, Value.isInt, Value.isNone])
    (by
      simp [recDepthEs, recDepth, nodeLeaf])

end Serious
